import Mathlib

/-!
# lataa: version resolution and concurrent fragment upload

A shallow embedding of `main.go`.  Go strings are Lean strings, Go `int` is a
64-bit integer represented by `Int` together with the range checks the library
performs, Go `error` values are represented by the text their `Error()` method
yields (the program only ever prints them), and a run-time panic is an explicit
outcome.  The remote API client is a record of state transformers over an
arbitrary service state, so every theorem quantifies over every behaviour of the
remote service.
-/

namespace Lataa

/-! ## Outcomes -/

/-- Go `error` values, represented by their message text. -/
abbrev GoError := String

/-- Result of running a piece of Go code that may panic at run time. -/
inductive Outcome (α : Type) where
  | ret (a : α)
  | panic (msg : String)
  deriving Repr, DecidableEq

/-! ## strconv -/

/-- Value of a decimal digit byte, as in `ParseUint` (base 10: an underscore or
any other byte is not a digit). -/
def digitVal (c : Char) : Option Nat :=
  if '0' ≤ c ∧ c ≤ '9' then some (c.toNat - 48) else none

/-- Ways in which `strconv` parsing fails. -/
inductive NumErr where
  | syntaxErr
  | rangeErr
  deriving Repr, DecidableEq

/-- Largest `uint64`. -/
def maxUint64 : Nat := 2 ^ 64 - 1

/-- The loop of `strconv.ParseUint(s, 10, 64)`: `cutoff` is `maxUint64/10 + 1`. -/
def parseUintLoop : List Char → Nat → Except NumErr Nat
  | [], n => .ok n
  | c :: cs, n =>
    match digitVal c with
    | none => .error .syntaxErr
    | some d =>
      if n ≥ maxUint64 / 10 + 1 then .error .rangeErr
      else
        let n1 := n * 10 + d
        if n1 > maxUint64 then .error .rangeErr
        else parseUintLoop cs n1

/-- Model of `strconv.ParseUint(s, 10, 64)`. -/
def ParseUint (s : List Char) : Except NumErr Nat :=
  match s with
  | [] => .error .syntaxErr
  | _ => parseUintLoop s 0

/-- Model of `strconv.ParseInt(s, 10, 0)` on a 64-bit platform. -/
def ParseInt (s : List Char) : Except NumErr Int :=
  match s with
  | [] => .error .syntaxErr
  | c :: cs =>
    let neg := decide (c = '-')
    let body := if c = '+' ∨ c = '-' then cs else c :: cs
    match ParseUint body with
    | .error e => .error e
    | .ok un =>
      if !neg && un ≥ 2 ^ 63 then .error .rangeErr
      else if neg && un > 2 ^ 63 then .error .rangeErr
      else .ok (if neg then -(un : Int) else (un : Int))

/-- Text of the `*strconv.NumError` that `Atoi` returns. -/
def atoiError (s : String) (e : NumErr) : GoError :=
  "strconv.Atoi: parsing \"" ++ s ++ "\": " ++
    (match e with
     | .syntaxErr => "invalid syntax"
     | .rangeErr => "value out of range")

/-- Model of `strconv.Atoi`: the fast path for short inputs computes the same
value as `ParseInt(s, 10, 0)`, which is what is modelled. -/
def Atoi (s : String) : Except GoError Int :=
  match ParseInt s.data with
  | .ok n => .ok n
  | .error e => .error (atoiError s e)

/-- Decimal digits of `n`, most significant first, prepended to `acc`; at least
one digit is produced (the do-while loop of `formatBits`). -/
def formatDigits : Nat → Nat → List Char → List Char
  | 0, _, acc => acc
  | fuel + 1, n, acc =>
    let acc1 := Char.ofNat (48 + n % 10) :: acc
    if n / 10 = 0 then acc1 else formatDigits fuel (n / 10) acc1

/-- Model of `strconv.Itoa` for a 64-bit `int` (twenty digits suffice). -/
def Itoa (i : Int) : String :=
  if i < 0 then String.mk ('-' :: formatDigits 20 i.natAbs [])
  else String.mk (formatDigits 20 i.natAbs [])

/-! ## Versions and their ordering -/

/-- The fields of `fastly.Version` that the program reads. -/
structure FastlyVersion where
  Number : String
  Active : Bool
  deriving Repr, DecidableEq

/-- The fields of `fastly.VCL` that the program reads. -/
structure FastlyVCL where
  Name : String
  Content : String
  deriving Repr, DecidableEq

/-- Go `type version struct`. -/
structure version where
  Number : Int
  Version : FastlyVersion
  deriving Repr, DecidableEq

/-- Go `type wrappedVersions []version`. -/
abbrev wrappedVersions := List version

/-- Method `Len` of `wrappedVersions`. -/
def wrappedVersions.Len (v : wrappedVersions) : Nat := v.length

/-- Method `Swap` of `wrappedVersions`: `v[i], v[j] = v[j], v[i]` (indices out of
range leave the slice unchanged; `sort.Sort` never produces them). -/
def wrappedVersions.Swap (v : wrappedVersions) (i j : Nat) : wrappedVersions :=
  match v.get? i, v.get? j with
  | some a, some b => (v.set i b).set j a
  | _, _ => v

/-- Method `Less` of `wrappedVersions`: `v[i].Number < v[j].Number`. -/
def wrappedVersions.Less (v : wrappedVersions) (i j : Nat) : Bool :=
  match v.get? i, v.get? j with
  | some a, some b => decide (a.Number < b.Number)
  | _, _ => false

/-- Inner loop of the library insertion sort:
`for j := i; j > a && data.Less(j, j-1); j-- { data.Swap(j, j-1) }` with `a = 0`. -/
def insertionInner : Nat → wrappedVersions → wrappedVersions
  | 0, v => v
  | j + 1, v => if v.Less (j + 1) j then insertionInner j (v.Swap (j + 1) j) else v

/-- Outer loop of the library insertion sort: `for i := a + 1; i < b; i++`,
with `count` the number of iterations left. -/
def insertionOuter : Nat → Nat → wrappedVersions → wrappedVersions
  | 0, _, v => v
  | count + 1, i, v => insertionOuter count (i + 1) (insertionInner i v)

/-- Model of `sort.Sort(wv)`, through the `Len`/`Less`/`Swap` interface only: the
insertion sort the library runs on short slices.  On longer slices the library
uses another algorithm with the same contract (an ascending rearrangement). -/
def sortSort (v : wrappedVersions) : wrappedVersions :=
  insertionOuter (v.Len - 1) 1 v

/-- Go slice indexing `s[i]` with its bounds check. -/
def sliceIndex {α : Type} (s : List α) (i : Int) : Outcome α :=
  if i < 0 then .panic "runtime error: index out of range"
  else
    match s.get? i.toNat with
    | some a => .ret a
    | none => .panic "runtime error: index out of range"

/-! ## Paths and patterns -/

/-- Model of `strings.Contains`. -/
def stringsContains (s substr : String) : Bool :=
  s.data.tails.any (fun t => substr.data.isPrefixOf t)

/-- Model of `filepath.Split` (Unix separator): the path is cut immediately
after its final `/`; the directory part keeps that slash. -/
def filepathSplit (path : String) : String × String :=
  let rev := path.data.reverse
  (String.mk (rev.dropWhile (fun c => c != '/')).reverse,
   String.mk (rev.takeWhile (fun c => c != '/')).reverse)

/-- Model of `strings.Split(s, sep)` for a one-byte separator. -/
def stringsSplit : List Char → Char → List (List Char)
  | [], _ => [[]]
  | c :: cs, sep =>
    if c = sep then [] :: stringsSplit cs sep
    else
      match stringsSplit cs sep with
      | piece :: pieces => (c :: piece) :: pieces
      | [] => [[c]]

/-- Go `func extractName(path string) string`.  `strings.Split` never returns an
empty slice for a non-empty separator, so the index `[0]` cannot fail. -/
def extractName (path : String) : String :=
  let file := (filepathSplit path).2
  match stringsSplit file.data '.' with
  | name :: _ => String.mk name
  | [] => ""

/-- One element of a compiled pattern. -/
inductive RegexpItem where
  | beginText
  | endText
  | lit (c : Char)
  deriving Repr, DecidableEq

/-- Compiled `*regexp.Regexp`, for the fragment of the pattern language that is
modelled: a sequence of literal bytes and the anchors `^` and `$`. -/
abbrev Regexp := List RegexpItem

/-- Bytes with a special meaning in a pattern, other than the two anchors. -/
def regexpMeta : List Char :=
  ['\\', '.', '+', '*', '?', '(', ')', '|', '[', ']', '\x7b', '\x7d']

/-- Model of `regexp.Compile` on the modelled fragment.  A pattern using any
other operator is outside the fragment and yields no compiled pattern, like a
pattern that fails to compile (the program discards the compile error and keeps
the nil pointer). -/
def regexpCompile (expr : String) : Option Regexp :=
  if expr.data.any (fun c => regexpMeta.contains c) then none
  else some (expr.data.map fun c =>
    if c = '^' then .beginText else if c = '$' then .endText else .lit c)

/-- Does the pattern match starting exactly here?  `atStart` says whether no
byte of the text precedes this position. -/
def matchHere : Regexp → Bool → List Char → Bool
  | [], _, _ => true
  | .beginText :: re, atStart, text => atStart && matchHere re atStart text
  | .endText :: re, atStart, text => text.isEmpty && matchHere re atStart text
  | .lit _ :: _, _, [] => false
  | .lit c :: re, _, d :: text => c == d && matchHere re false text

/-- Unanchored search: try every starting position, left to right. -/
def matchFrom (re : Regexp) : Bool → List Char → Bool
  | atStart, [] => matchHere re atStart []
  | atStart, c :: text => matchHere re atStart (c :: text) || matchFrom re false text

/-- Model of `(*Regexp).MatchString`; a nil receiver panics. -/
def MatchString (re : Option Regexp) (s : String) : Outcome Bool :=
  match re with
  | none => .panic "runtime error: invalid memory address or nil pointer dereference"
  | some r => .ret (matchFrom r true s.data)

/-! ## The remote client and the process state -/

/-- Remote operations, as recorded in the order they are issued. -/
inductive Call where
  | ListVersions (service : String)
  | GetVersion (service version : String)
  | CloneVersion (service version : String)
  | ActivateVersion (service version : String)
  | CreateVCL (service version name content : String)
  | UpdateVCL (service version name content : String)
  deriving Repr, DecidableEq

/-- The operations of `*fastly.Client` that the program uses, each a transformer
of the remote service state `σ` returning the Go pair `(value, error)`. -/
structure Client (σ : Type) where
  ListVersions : String → σ → Except GoError (List FastlyVersion) × σ
  GetVersion : String → String → σ → Except GoError FastlyVersion × σ
  CloneVersion : String → String → σ → Except GoError FastlyVersion × σ
  ActivateVersion : String → String → σ → Except GoError FastlyVersion × σ
  CreateVCL : String → String → String → String → σ → Except GoError FastlyVCL × σ
  UpdateVCL : String → String → String → String → σ → Except GoError FastlyVCL × σ

/-- Go `type vclResponse struct`. -/
structure vclResponse where
  Path : String
  Name : String
  Content : String
  Error : Bool
  deriving Repr, DecidableEq

/-- The package-level variables (`latestVersion` is never assigned and is left
out; the wait group is the set of unfinished tasks), together with the remote
service state, the log of remote calls and the standard output. -/
structure State (σ : Type) where
  remote : σ
  calls : List Call
  stdout : List String
  fastlyServiceID : String
  selectedVersion : String
  vclFiles : List String
  dirSkipRegex : Option Regexp
  dirMatchRegex : Option Regexp
  ch : List vclResponse
  chCap : Nat

/-- Record a remote call and the service state it leaves behind. -/
def State.called {σ : Type} (s : State σ) (c : Call) (remote : σ) : State σ :=
  { s with remote := remote, calls := s.calls ++ [c] }

/-- Write to standard output. -/
def State.print {σ : Type} (s : State σ) (text : String) : State σ :=
  { s with stdout := s.stdout ++ [text] }

/-- What the program reads from its surroundings. -/
structure Env where
  VCL_SKIP_DIRECTORY : String
  VCL_MATCH_DIRECTORY : String
  /-- The error of `fastly.NewClient(token)`, if any. -/
  NewClient : String → Option GoError
  /-- The paths `filepath.Walk(dir, ...)` hands to the walk function, in order. -/
  Walk : String → List String
  /-- Result of `ioutil.ReadFile(path)`. -/
  ReadFile : String → Except GoError String
  /-- Whether the colour library is switched off (output is not a terminal). -/
  NoColor : Bool

/-- Result of `color.New(attr).SprintFunc()` applied to a string. -/
def sprintColor (env : Env) (code : String) (s : String) : String :=
  if env.NoColor then s else "\x1b[" ++ code ++ "m" ++ s ++ "\x1b[0m"

/-- Go `var yellow`. -/
def yellow (env : Env) (s : String) : String := sprintColor env "33" s

/-- Go `var red`. -/
def red (env : Env) (s : String) : String := sprintColor env "31" s

/-- Go `var green`. -/
def green (env : Env) (s : String) : String := sprintColor env "32" s

/-- Go `const Version`. -/
def Version : String := "1.1.0"

/-! ## Version queries -/

/-- Go `func getStatusVersion`. -/
def getStatusVersion {σ : Type} (env : Env) (statusVersion : String) (client : Client σ)
    (s : State σ) : Except GoError String × State σ :=
  match client.GetVersion s.fastlyServiceID statusVersion s.remote with
  | (.error err, remote) =>
    (.error err, s.called (.GetVersion s.fastlyServiceID statusVersion) remote)
  | (.ok versionStatus, remote) =>
    let status := if versionStatus.Active then red env "already activated"
      else green env "not activated"
    (.ok status, s.called (.GetVersion s.fastlyServiceID statusVersion) remote)

/-- Go `func cloneFromVersion`. -/
def cloneFromVersion {σ : Type} (ver : String) (client : Client σ)
    (s : State σ) : Except GoError FastlyVersion × State σ :=
  match client.CloneVersion s.fastlyServiceID ver s.remote with
  | (.error err, remote) => (.error err, s.called (.CloneVersion s.fastlyServiceID ver) remote)
  | (.ok clonedVersion, remote) =>
    (.ok clonedVersion, s.called (.CloneVersion s.fastlyServiceID ver) remote)

/-- The conversion loop of `getLatestVCLVersion`: each number goes through
`strconv.Atoi`, and the first failure is returned. -/
def wrapVersions : List FastlyVersion → wrappedVersions → Except GoError wrappedVersions
  | [], wv => .ok wv
  | v :: rest, wv =>
    match Atoi v.Number with
    | .error err => .error err
    | .ok i => wrapVersions rest (wv ++ [⟨i, v⟩])

/-- Go `func getLatestVCLVersion`: the result is the returned `(string, error)`
pair, or a panic. -/
def getLatestVCLVersion {σ : Type} (client : Client σ)
    (s : State σ) : Outcome (Except GoError String) × State σ :=
  match client.ListVersions s.fastlyServiceID s.remote with
  | (.error err, remote) => (.ret (.error err), s.called (.ListVersions s.fastlyServiceID) remote)
  | (.ok listVersions, remote) =>
    let s1 := s.called (.ListVersions s.fastlyServiceID) remote
    match wrapVersions listVersions [] with
    | .error err => (.ret (.error err), s1)
    | .ok wv =>
      let sorted := sortSort wv
      match sliceIndex sorted ((sorted.Len : Int) - 1) with
      | .panic msg => (.panic msg, s1)
      | .ret last => (.ret (.ok (Itoa last.Number)), s1)

/-- Go `func getLatestServiceVersion`. -/
def getLatestServiceVersion {σ : Type} (env : Env) (client : Client σ)
    (s : State σ) : Outcome (Except GoError (String × String)) × State σ :=
  match getLatestVCLVersion client s with
  | (.panic msg, s1) => (.panic msg, s1)
  | (.ret (.error err), s1) => (.ret (.error err), s1)
  | (.ret (.ok latestVersion), s1) =>
    match getStatusVersion env latestVersion client s1 with
    | (.error err, s2) => (.ret (.error err), s2)
    | (.ok status, s2) => (.ret (.ok (latestVersion, status)), s2)

/-! ## Collecting the fragment paths -/

/-- Go `func validPathDefaults`. -/
def validPathDefaults (path : String) : Bool :=
  !stringsContains path ".git" && stringsContains path ".vcl"

/-- Go `func validPathUserDefined`. -/
def validPathUserDefined {σ : Type} (s : State σ) (path : String) : Outcome Bool :=
  MatchString s.dirMatchRegex path

/-- Go `func invalidPathUserDefined`. -/
def invalidPathUserDefined {σ : Type} (s : State σ) (path : String) : Outcome Bool :=
  MatchString s.dirSkipRegex path

/-- Go `func aggregate` (the walk function): the three tests are joined by the
short-circuit `&&`; the returned error is always nil. -/
def aggregate {σ : Type} (path : String) (s : State σ) : Outcome (Option GoError) × State σ :=
  if validPathDefaults path then
    match validPathUserDefined s path with
    | .panic msg => (.panic msg, s)
    | .ret false => (.ret none, s)
    | .ret true =>
      match invalidPathUserDefined s path with
      | .panic msg => (.panic msg, s)
      | .ret true => (.ret none, s)
      | .ret false => (.ret none, { s with vclFiles := s.vclFiles ++ [path] })
  else (.ret none, s)

/-- Model of `filepath.Walk`: the walk function is applied to the visited paths
in order, and the first error it returns ends the walk and is returned. -/
def filepathWalk {σ : Type} (walkFn : String → State σ → Outcome (Option GoError) × State σ) :
    List String → State σ → Outcome (Option GoError) × State σ
  | [], s => (.ret none, s)
  | path :: rest, s =>
    match walkFn path s with
    | (.panic msg, s1) => (.panic msg, s1)
    | (.ret (some err), s1) => (.ret (some err), s1)
    | (.ret none, s1) => filepathWalk walkFn rest s1

/-! ## The per-fragment task -/

/-- Go `func getLocalVCL`. -/
def getLocalVCL (env : Env) (path : String) : Except GoError String :=
  match env.ReadFile path with
  | .error err => .error err
  | .ok content => .ok content

/-- Program points of one `uploadVCL` goroutine at which other goroutines may
run in between: before the file is read, before the create call, before the
update call, before the channel send, and after `wg.Done()`. -/
inductive Task where
  | entry (path : String)
  | create (path name content : String)
  | update (path name content : String)
  | send (r : vclResponse)
  | done
  deriving Repr, DecidableEq

/-- One step of Go `func uploadVCL`, from one program point to the next.  A send
on the buffered channel blocks while the buffer is full. -/
def uploadVCLStep {σ : Type} (env : Env) (client : Client σ) (t : Task)
    (s : State σ) : Task × State σ :=
  match t with
  | .entry path =>
    let name := extractName path
    match getLocalVCL env path with
    | .error err =>
      (.send { Path := path, Name := name,
               Content := "get local vcl error: " ++ err, Error := true }, s)
    | .ok content => (.create path name content, s)
  | .create path name content =>
    match client.CreateVCL s.fastlyServiceID s.selectedVersion name content s.remote with
    | (.error err, remote) =>
      let s1 := s.called (.CreateVCL s.fastlyServiceID s.selectedVersion name content) remote
      (.update path name content,
       s1.print ("\nThere was an error creating the file '" ++ yellow env name ++ "':\n" ++
         red env err ++ "\nWe'll now try updating this file instead of creating it\n"))
    | (.ok vclFile, remote) =>
      (.send { Path := path, Name := name, Content := vclFile.Content, Error := false },
       s.called (.CreateVCL s.fastlyServiceID s.selectedVersion name content) remote)
  | .update path name content =>
    match client.UpdateVCL s.fastlyServiceID s.selectedVersion name content s.remote with
    | (.error updateErr, remote) =>
      (.send { Path := path, Name := name, Content := "error: " ++ updateErr, Error := true },
       s.called (.UpdateVCL s.fastlyServiceID s.selectedVersion name content) remote)
    | (.ok vclFileUpdate, remote) =>
      (.send { Path := path, Name := name, Content := vclFileUpdate.Content, Error := false },
       s.called (.UpdateVCL s.fastlyServiceID s.selectedVersion name content) remote)
  | .send r =>
    if s.ch.length < s.chCap then (.done, { s with ch := s.ch ++ [r] }) else (.send r, s)
  | .done => (.done, s)

/-- Run one task for `n` steps without interruption. -/
def runTask {σ : Type} (env : Env) (client : Client σ) : Nat → Task → State σ → Task × State σ
  | 0, t, s => (t, s)
  | n + 1, t, s =>
    let r := uploadVCLStep env client t s
    runTask env client n r.1 r.2

/-- Go `func uploadVCL(path, client)` run from entry to `wg.Done()` with no other
goroutine in between (four steps reach the end on every branch). -/
def uploadVCL {σ : Type} (env : Env) (client : Client σ) (path : String)
    (s : State σ) : Task × State σ :=
  runTask env client 4 (.entry path) s

/-! ## Running the tasks concurrently -/

/-- The goroutines and the state they share. -/
abbrev Pool (σ : Type) := List Task × State σ

/-- The scheduler lets goroutine `i` take its next step (nothing happens when
there is no such goroutine). -/
def stepTask {σ : Type} (env : Env) (client : Client σ) (i : Nat) (p : Pool σ) : Pool σ :=
  match p.1.get? i with
  | none => p
  | some t =>
    let r := uploadVCLStep env client t p.2
    (p.1.set i r.1, r.2)

/-- Run the goroutines in the interleaving given by a list of scheduler choices. -/
def runSchedule {σ : Type} (env : Env) (client : Client σ) : List Nat → Pool σ → Pool σ
  | [], p => p
  | i :: rest, p => runSchedule env client rest (stepTask env client i p)

/-- Scheduler choices that let every goroutine run to its end, in index order. -/
def drainSchedule (n : Nat) : List Nat :=
  (List.range n).flatMap fun i => List.replicate 4 i

/-- Lines 229 to 235 of `main`: make the channel with capacity `len(vclFiles)`,
start one goroutine per path, `wg.Wait()`, `close(ch)`.  The goroutines first
interleave as `sched` says; `wg.Wait()` then lets each unfinished goroutine run
on.  If some goroutine could never finish, the wait would not return. -/
def dispatch {σ : Type} (env : Env) (client : Client σ) (sched : List Nat)
    (s : State σ) : Outcome (State σ) :=
  let s1 := { s with ch := [], chCap := s.vclFiles.length }
  let tasks := s1.vclFiles.map Task.entry
  let p := runSchedule env client (sched ++ drainSchedule tasks.length) (tasks, s1)
  if p.1.all (fun t => t == Task.done) then .ret p.2
  else .panic "fatal error: all goroutines are asleep - deadlock!"

/-- The loop of `main` that prints the aggregated results. -/
def report {σ : Type} (env : Env) : List vclResponse → State σ → State σ
  | [], s => s
  | vclFile :: rest, s =>
    if vclFile.Error then
      report env rest (s.print ("\nWhoops, the file '" ++ yellow env vclFile.Name ++
        "' didn't upload because of the following error:\n\t" ++ red env vclFile.Content ++ "\n"))
    else
      report env rest (s.print ("\nYay, the file '" ++ green env vclFile.Name ++
        "' was uploaded successfully"))

/-! ## main -/

/-- The command-line flags after `flag.Parse()`. -/
structure Flags where
  help : Bool
  appVersion : Bool
  useLatestVersion : Bool
  getLatestVersion : Bool
  cloneVersion : String
  uploadVersion : String
  activateVersion : String
  statusVersion : String
  service : String
  token : String
  dir : String
  skip : String
  matchDir : String

/-- How a run of the program ends (`running`: it has not ended yet). -/
inductive Status where
  | running
  | returned
  | exited (code : Nat)
  | panicked (msg : String)
  deriving Repr, DecidableEq

/-- Lines 162 to 220 of `main`: choose `selectedVersion`. -/
def resolveVersion {σ : Type} (client : Client σ) (flags : Flags)
    (s : State σ) : Status × State σ :=
  if flags.cloneVersion ≠ "" then
    match cloneFromVersion flags.cloneVersion client s with
    | (.error err, s1) => (.exited 1, s1.print (err ++ "\n"))
    | (.ok clonedVersion, s1) =>
      let s2 := s1.print ("Successfully created new version " ++ clonedVersion.Number ++
        " from existing version " ++ flags.cloneVersion ++ "\n\n")
      (.running, { s2 with selectedVersion := flags.cloneVersion })
  else if flags.uploadVersion ≠ "" then
    match client.GetVersion s.fastlyServiceID flags.uploadVersion s.remote with
    | (.error err, remote) =>
      (.exited 1,
       (s.called (.GetVersion s.fastlyServiceID flags.uploadVersion) remote).print (err ++ "\n"))
    | (.ok getVersion, remote) =>
      let s1 := s.called (.GetVersion s.fastlyServiceID flags.uploadVersion) remote
      if getVersion.Active then
        (.exited 1, s1.print "Sorry, the specified version is already activated\n")
      else (.running, { s1 with selectedVersion := flags.uploadVersion })
  else
    match getLatestVCLVersion client s with
    | (.panic msg, s1) => (.panicked msg, s1)
    | (.ret (.error err), s1) => (.exited 1, s1.print (err ++ "\n"))
    | (.ret (.ok latestVersion), s1) =>
      let s2 := { s1 with selectedVersion := latestVersion }
      if flags.useLatestVersion then
        match client.GetVersion s2.fastlyServiceID latestVersion s2.remote with
        | (.error err, remote) =>
          (.exited 1,
           (s2.called (.GetVersion s2.fastlyServiceID latestVersion) remote).print (err ++ "\n"))
        | (.ok getVersion, remote) =>
          let s3 := s2.called (.GetVersion s2.fastlyServiceID latestVersion) remote
          if getVersion.Active then
            (.exited 1, s3.print "Sorry, the latest version is already activated\n")
          else (.running, { s3 with selectedVersion := latestVersion })
      else
        match cloneFromVersion latestVersion client s2 with
        | (.error err, s3) => (.exited 1, s3.print (err ++ "\n"))
        | (.ok clonedVersion, s3) =>
          let s4 := s3.print ("Successfully created new version " ++ clonedVersion.Number ++
            " from latest version " ++ latestVersion ++ "\n\n")
          (.running, { s4 with selectedVersion := clonedVersion.Number })

/-- Lines 222 to 244 of `main`: walk the directory, upload, report. -/
def syncFragments {σ : Type} (env : Env) (client : Client σ) (flags : Flags)
    (sched : List Nat) (s : State σ) : Status × State σ :=
  match filepathWalk aggregate (env.Walk flags.dir) s with
  | (.panic msg, s1) => (.panicked msg, s1)
  | (.ret walkError, s1) =>
    let s2 := match walkError with
      | some err => s1.print ("filepath.Walk() returned an error: " ++ err ++ "\n")
      | none => s1
    match dispatch env client sched s2 with
    | .panic msg => (.panicked msg, s2)
    | .ret s3 => (.returned, report env s3.ch s3)

/-- The state in which `main` starts. -/
def initState {σ : Type} (remote : σ) : State σ :=
  { remote := remote, calls := [], stdout := [], fastlyServiceID := "", selectedVersion := "",
    vclFiles := [], dirSkipRegex := none, dirMatchRegex := none, ch := [], chCap := 0 }

/-- Go `func main`.  `flag.PrintDefaults` writes to standard error, which is not
modelled.  `sched` is the interleaving the scheduler picks for the goroutines. -/
def main {σ : Type} (env : Env) (client : Client σ) (flags : Flags) (sched : List Nat)
    (remote : σ) : Status × State σ :=
  let s0 := initState remote
  if flags.help then (.exited 1, s0)
  else if flags.appVersion then (.exited 1, s0.print (Version ++ "\n"))
  else
    let skip := if env.VCL_SKIP_DIRECTORY ≠ "" then env.VCL_SKIP_DIRECTORY else flags.skip
    let matchDir := if env.VCL_MATCH_DIRECTORY ≠ "" then env.VCL_MATCH_DIRECTORY
      else flags.matchDir
    let s1 := { s0 with dirSkipRegex := regexpCompile skip, dirMatchRegex := regexpCompile matchDir }
    match env.NewClient flags.token with
    | some err => (.exited 1, s1.print (err ++ "\n"))
    | none =>
      let s2 := { s1 with fastlyServiceID := flags.service }
      if flags.getLatestVersion then
        match getLatestServiceVersion env client s2 with
        | (.panic msg, s3) => (.panicked msg, s3)
        | (.ret (.error err), s3) => (.exited 1, s3.print (err ++ "\n"))
        | (.ret (.ok (latestVersion, status)), s3) =>
          (.returned, s3.print ("\nLatest service version: " ++ latestVersion ++ " (" ++ status ++
            ")\n\n"))
      else if flags.activateVersion ≠ "" then
        match client.ActivateVersion s2.fastlyServiceID flags.activateVersion s2.remote with
        | (.error err, remote1) =>
          (.exited 1,
           (s2.called (.ActivateVersion s2.fastlyServiceID flags.activateVersion) remote1).print
             ("\nThere was a problem activating version " ++ yellow env flags.activateVersion ++
               "\n\n" ++ red env err))
        | (.ok _, remote1) =>
          (.returned,
           (s2.called (.ActivateVersion s2.fastlyServiceID flags.activateVersion) remote1).print
             ("\nService '" ++ yellow env s2.fastlyServiceID ++ "' now has version '" ++
               green env flags.activateVersion ++ "' activated\n\n"))
      else if flags.statusVersion ≠ "" then
        match getStatusVersion env flags.statusVersion client s2 with
        | (.error err, s3) =>
          (.exited 1, s3.print ("\nThere was a problem getting the status for version " ++
            yellow env flags.statusVersion ++ "\n\n" ++ red env err ++ "\n\n"))
        | (.ok status, s3) =>
          (.returned, s3.print ("\nService '" ++ yellow env s2.fastlyServiceID ++ "' version '" ++
            yellow env flags.statusVersion ++ "' is '" ++ status ++ "'\n\n"))
      else if flags.cloneVersion ≠ "" ∧ flags.uploadVersion ≠ "" then
        (.exited 1,
         s2.print "Please do not provide both -clone-version and -upload-version flags\n")
      else
        match resolveVersion client flags s2 with
        | (.running, s3) => syncFragments env client flags sched s3
        | (status, s3) => (status, s3)

/-- The flag values when no flag is given on the command line. -/
def defaultFlags (FASTLY_SERVICE_ID FASTLY_API_TOKEN VCL_DIRECTORY : String) : Flags :=
  { help := false, appVersion := false, useLatestVersion := false, getLatestVersion := false,
    cloneVersion := "", uploadVersion := "", activateVersion := "", statusVersion := "",
    service := FASTLY_SERVICE_ID, token := FASTLY_API_TOKEN, dir := VCL_DIRECTORY,
    skip := "^____", matchDir := "" }

/-! ## A reference remote service

The theorems below hold for every `Client`.  For concrete runs, the following
remote service follows the interface description of the specification: versions
are numbered consecutively from 1, a clone is a new inactive version, only an
inactive version can be edited, and creating a fragment whose name exists fails. -/

/-- State of the reference service: its versions and the stored fragments, each
fragment being `(version, name, content)`. -/
structure Service where
  versions : List FastlyVersion
  vcls : List (String × String × String)
  deriving Repr, DecidableEq

/-- Look a version up by its number. -/
def Service.find (st : Service) (number : String) : Option FastlyVersion :=
  st.versions.find? fun v => v.Number == number

/-- Is a fragment of this name stored in this version? -/
def Service.hasVCL (st : Service) (ver name : String) : Bool :=
  st.vcls.any fun f => f.1 == ver && f.2.1 == name

/-- The reference service as a `Client`. -/
def fastly : Client Service where
  ListVersions _ st := (.ok st.versions, st)
  GetVersion _ number st :=
    match st.find number with
    | some v => (.ok v, st)
    | none => (.error "404 - Not Found", st)
  CloneVersion _ number st :=
    match st.find number with
    | none => (.error "404 - Not Found", st)
    | some _ =>
      let clone : FastlyVersion := ⟨Itoa (st.versions.length + 1), false⟩
      (.ok clone, { st with
        versions := st.versions ++ [clone],
        vcls := st.vcls ++ (st.vcls.filter fun f => f.1 == number).map
          fun f => (clone.Number, f.2) })
  ActivateVersion _ number st :=
    match st.find number with
    | none => (.error "404 - Not Found", st)
    | some _ =>
      (.ok ⟨number, true⟩, { st with
        versions := st.versions.map fun v => ⟨v.Number, v.Number == number⟩ })
  CreateVCL _ ver name content st :=
    match st.find ver with
    | none => (.error "404 - Not Found", st)
    | some v =>
      if v.Active then (.error "422 - Version is active", st)
      else if st.hasVCL ver name then (.error "409 - Duplicate record", st)
      else (.ok ⟨name, content⟩, { st with vcls := st.vcls ++ [(ver, name, content)] })
  UpdateVCL _ ver name content st :=
    match st.find ver with
    | none => (.error "404 - Not Found", st)
    | some v =>
      if v.Active then (.error "422 - Version is active", st)
      else if st.hasVCL ver name then
        (.ok ⟨name, content⟩, { st with
          vcls := st.vcls.map fun f => if f.1 == ver && f.2.1 == name then (ver, name, content)
            else f })
      else (.error "404 - Not Found", st)

/-- Surroundings for concrete runs: colours off, a directory `vcl` holding
`main.vcl` and `____private/x.vcl`, every file readable with the same content. -/
def sampleEnv : Env :=
  { VCL_SKIP_DIRECTORY := "", VCL_MATCH_DIRECTORY := "", NewClient := fun _ => none,
    Walk := fun dir =>
      if dir = "vcl" then ["vcl", "vcl/main.vcl", "vcl/____private", "vcl/____private/x.vcl"]
      else [],
    ReadFile := fun _ => .ok "sub vcl_recv",
    NoColor := true }

/-! ## Definitions used in the statements and proofs -/

/-- Insertion into a descending list, seen from its greatest element. -/
def insertDesc (x : version) : List version → List version
  | [] => [x]
  | y :: r => if x.Number < y.Number then y :: insertDesc x r else x :: y :: r

/-- The first element is a greatest one. -/
def HeadMax (r : List version) : Prop :=
  ∃ m rest, r = m :: rest ∧ ∀ y ∈ r, y.Number ≤ m.Number

/-- Specification wording, "the last directory segment" of a path: the final
component of the directory part of the path. -/
def lastDirSegment (path : String) : String :=
  let dir := (filepathSplit path).1
  (filepathSplit (String.mk dir.data.dropLast)).2

/-- The walk state under the default patterns: `-skip` is `^____`, `-match` is
empty, as compiled at the start of `main`. -/
def withDefaultPatterns {σ : Type} (s : State σ) : State σ :=
  { s with dirSkipRegex := regexpCompile (defaultFlags "" "" "").skip,
           dirMatchRegex := regexpCompile (defaultFlags "" "" "").matchDir }

/-- Does the path begin with four underscores? -/
def startsWithFourUnderscores (path : String) : Bool :=
  "____".data.isPrefixOf path.data

/-- The four ways of choosing the target version. -/
inductive Policy where
  | cloneFrom (v : String)
  | uploadTo (v : String)
  | useLatest
  | default
  deriving Repr, DecidableEq

/-- The policy that the flags select, in the order `main` tests them. -/
def policyOf (flags : Flags) : Policy :=
  if flags.cloneVersion ≠ "" then .cloneFrom flags.cloneVersion
  else if flags.uploadVersion ≠ "" then .uploadTo flags.uploadVersion
  else if flags.useLatestVersion then .useLatest
  else .default

/-- Is the call a clone? -/
def isClone : Call → Bool
  | .CloneVersion _ _ => true
  | _ => false

/-- Does the call change the remote service? -/
def isMutating : Call → Bool
  | .ListVersions _ => false
  | .GetVersion _ _ => false
  | _ => true

/-- The path whose result a goroutine still owes, if any. -/
def Task.pending : Task → Option String
  | .entry path => some path
  | .create path _ _ => some path
  | .update path _ _ => some path
  | .send r => some r.Path
  | .done => none

/-- The name a goroutine carries is the one derived from its path. -/
def Task.Named : Task → Prop
  | .entry _ => True
  | .create path name _ => name = extractName path
  | .update path name _ => name = extractName path
  | .send r => r.Name = extractName r.Path
  | .done => True

/-- Number of steps a goroutine still has to take, at most. -/
def Task.rank : Task → Nat
  | .entry _ => 4
  | .create _ _ _ => 3
  | .update _ _ _ => 2
  | .send _ => 1
  | .done => 0

/-- Invariant of the pool while fragments are uploaded: the channel capacity is
the number of paths, the results in the channel together with the paths still
owed are the input paths, and every name is derived from its path. -/
structure PoolInv {σ : Type} (paths : List String) (p : Pool σ) : Prop where
  cap : p.2.chCap = paths.length
  perm : (p.2.ch.map (fun r => r.Path) ++ p.1.filterMap Task.pending).Perm paths
  names : ∀ r ∈ p.2.ch, r.Name = extractName r.Path
  tasks : ∀ t ∈ p.1, t.Named

/-- Flags of the concrete runs: service `svc`, directory `vcl`, nothing else set. -/
def sampleFlags : Flags := defaultFlags "svc" "token" "vcl"

/-- State of the concrete runs when version resolution starts. -/
def sampleState (remote : Service) : State Service :=
  { initState remote with fastlyServiceID := "svc" }

/-! ## strconv: what `Itoa` writes, `Atoi` reads back -/

theorem digitVal_ofNat (d : Nat) (hd : d < 10) : digitVal (Char.ofNat (48 + d)) = some d := by
  interval_cases d <;> rfl

theorem parseUintLoop_formatDigits (fuel : Nat) :
    ∀ (n : Nat) (acc : List Char), n < 10 ^ fuel → n < 2 ^ 64 →
      parseUintLoop (formatDigits fuel n acc) 0 = parseUintLoop acc n := by
  induction fuel with
  | zero =>
    intro n acc h _
    have : n = 0 := by simpa using h
    subst this
    rfl
  | succ f ih =>
    intro n acc h h64
    have hmod : n % 10 < 10 := Nat.mod_lt _ (by norm_num)
    have hdm : n / 10 * 10 + n % 10 = n := Nat.div_add_mod' n 10
    unfold formatDigits
    by_cases h0 : n / 10 = 0
    · simp only [h0, if_true]
      simp only [parseUintLoop, digitVal_ofNat _ hmod, maxUint64]
      have : n % 10 = n := by omega
      rw [this]
      have h1 : ¬ (0 ≥ (2 ^ 64 - 1) / 10 + 1) := by norm_num
      have h2 : ¬ (0 * 10 + n > 2 ^ 64 - 1) := by omega
      simp only [h1, h2, if_false]
      simp
    · simp only [h0, if_false]
      have hlt : n / 10 < 10 ^ f := by
        rw [pow_succ] at h
        exact Nat.div_lt_of_lt_mul (by rw [Nat.mul_comm]; exact h)
      rw [ih (n / 10) _ hlt (by omega)]
      simp only [parseUintLoop, digitVal_ofNat _ hmod, maxUint64]
      have h1 : ¬ (n / 10 ≥ (2 ^ 64 - 1) / 10 + 1) := by omega
      have h2 : ¬ (n > 2 ^ 64 - 1) := by omega
      simp only [hdm, h1, h2, if_false]

theorem formatDigits_head (fuel : Nat) :
    ∀ (n : Nat) (acc : List Char), ∃ d rest, d < 10 ∧
      formatDigits (fuel + 1) n acc = Char.ofNat (48 + d) :: rest := by
  induction fuel with
  | zero =>
    intro n acc
    refine ⟨n % 10, acc, Nat.mod_lt _ (by norm_num), ?_⟩
    simp [formatDigits]
  | succ f ih =>
    intro n acc
    by_cases h0 : n / 10 = 0
    · refine ⟨n % 10, acc, Nat.mod_lt _ (by norm_num), ?_⟩
      rw [formatDigits]
      simp [h0]
    · obtain ⟨d, rest, hd, hr⟩ := ih (n / 10) (Char.ofNat (48 + n % 10) :: acc)
      refine ⟨d, rest, hd, ?_⟩
      rw [formatDigits]
      simp only [h0, if_false]
      exact hr

theorem digitChar_not_sign (d : Nat) (hd : d < 10) :
    ¬ (Char.ofNat (48 + d) = '+' ∨ Char.ofNat (48 + d) = '-') := by
  interval_cases d <;> decide

theorem ParseUint_formatDigits (n : Nat) (h64 : n < 2 ^ 64) :
    ParseUint (formatDigits 20 n []) = .ok n := by
  obtain ⟨d, rest, _, hr⟩ := formatDigits_head 19 n []
  have h := parseUintLoop_formatDigits 20 n [] (by omega) h64
  unfold ParseUint
  rw [hr] at h ⊢
  simp only
  rw [h]
  rfl

theorem Atoi_Itoa (i : Int) (hlo : -(2 ^ 63) ≤ i) (hhi : i < 2 ^ 63) : Atoi (Itoa i) = .ok i := by
  have hn : i.natAbs < 2 ^ 64 := by omega
  obtain ⟨d, rest, hd, hr⟩ := formatDigits_head 19 i.natAbs []
  have hp := ParseUint_formatDigits i.natAbs hn
  unfold Atoi Itoa
  by_cases hneg : i < 0
  · simp only [hneg, if_true, ParseInt]
    simp only [decide_True, or_true, if_true, hp]
    have h1 : ¬ (9223372036854775808 < i.natAbs) := by omega
    simp [h1]
    rw [abs_of_neg hneg]
    omega
  · simp only [hneg, if_false]
    rw [hr] at hp ⊢
    simp only [ParseInt, digitChar_not_sign d hd, if_false, hp]
    have hne : Char.ofNat (48 + d) ≠ '-' := fun h => digitChar_not_sign d hd (Or.inr h)
    have h1 : ¬ (9223372036854775808 ≤ i.natAbs) := by omega
    simp [hne, h1]
    omega

theorem ParseInt_range (l : List Char) (n : Int) (h : ParseInt l = .ok n) :
    -(2 ^ 63) ≤ n ∧ n < 2 ^ 63 := by
  cases l with
  | nil => simp [ParseInt] at h
  | cons c cs =>
    simp only [ParseInt] at h
    cases hu : ParseUint (if c = '+' ∨ c = '-' then cs else c :: cs) with
    | error e => simp [hu] at h
    | ok un =>
      simp only [hu] at h
      by_cases hc : c = '-'
      · by_cases h1 : 9223372036854775808 < un
        · simp [hc, h1] at h
        · simp only [hc, decide_True, Bool.not_true, Bool.false_and, Bool.true_and, if_true] at h
          simp [h1] at h
          subst h
          constructor <;> omega
      · by_cases h1 : 9223372036854775808 ≤ un
        · simp [hc, h1] at h
        · simp [hc, h1] at h
          subst h
          constructor <;> omega

theorem Atoi_range (s : String) (n : Int) (h : Atoi s = .ok n) :
    -(2 ^ 63) ≤ n ∧ n < 2 ^ 63 := by
  unfold Atoi at h
  cases hp : ParseInt s.data with
  | error e => simp [hp] at h
  | ok m =>
    simp [hp] at h
    subst h
    exact ParseInt_range _ _ hp

/-! ## The insertion sort leaves a greatest version last -/

theorem get?_append_length {α : Type} (pre : List α) (x : α) (post : List α) :
    (pre ++ x :: post).get? pre.length = some x := by
  induction pre with
  | nil => rfl
  | cons a pre ih => simpa using ih

theorem get?_append_length_succ {α : Type} (pre : List α) (y x : α) (post : List α) :
    (pre ++ y :: x :: post).get? (pre.length + 1) = some x := by
  induction pre with
  | nil => rfl
  | cons a pre ih => simpa using ih

theorem set_append_length {α : Type} (pre : List α) (x z : α) (post : List α) :
    (pre ++ x :: post).set pre.length z = pre ++ z :: post := by
  induction pre with
  | nil => rfl
  | cons a pre ih => simp

theorem set_append_length_succ {α : Type} (pre : List α) (y x z : α) (post : List α) :
    (pre ++ y :: x :: post).set (pre.length + 1) z = pre ++ y :: z :: post := by
  induction pre with
  | nil => rfl
  | cons a pre ih => simp

theorem Less_adjacent (pre : List version) (y x : version) (post : List version) :
    wrappedVersions.Less (pre ++ y :: x :: post) (pre.length + 1) pre.length
      = decide (x.Number < y.Number) := by
  unfold wrappedVersions.Less
  rw [get?_append_length_succ, get?_append_length]

theorem Swap_adjacent (pre : List version) (y x : version) (post : List version) :
    wrappedVersions.Swap (pre ++ y :: x :: post) (pre.length + 1) pre.length
      = pre ++ x :: y :: post := by
  unfold wrappedVersions.Swap
  rw [get?_append_length_succ, get?_append_length]
  simp only
  rw [set_append_length_succ, set_append_length]

theorem insertionInner_eq (r : List version) :
    ∀ (x : version) (post : List version),
      insertionInner r.length (r.reverse ++ x :: post) = (insertDesc x r).reverse ++ post := by
  induction r with
  | nil => intro x post; rfl
  | cons y r ih =>
    intro x post
    have hv : (y :: r).reverse ++ x :: post = r.reverse ++ y :: x :: post := by simp
    have hl : (y :: r).length = r.reverse.length + 1 := by simp
    rw [hv, hl, insertionInner, Less_adjacent, Swap_adjacent]
    by_cases hxy : x.Number < y.Number
    · simp only [hxy, decide_True, if_true, insertDesc]
      rw [List.length_reverse, ih x (y :: post)]
      simp
    · simp [hxy, insertDesc]

theorem length_insertDesc (x : version) (r : List version) :
    (insertDesc x r).length = r.length + 1 := by
  induction r with
  | nil => rfl
  | cons y r ih =>
    unfold insertDesc
    split <;> simp [ih]

theorem insertionOuter_eq (post : List version) :
    ∀ (r : List version),
      insertionOuter post.length r.length (r.reverse ++ post)
        = (post.foldl (fun acc x => insertDesc x acc) r).reverse := by
  induction post with
  | nil => intro r; simp [insertionOuter]
  | cons x post ih =>
    intro r
    rw [List.length_cons, insertionOuter, insertionInner_eq, ← length_insertDesc x r, ih]
    rfl

theorem sortSort_eq (x : version) (rest : List version) :
    sortSort (x :: rest) = (rest.foldl (fun acc x => insertDesc x acc) [x]).reverse := by
  have h := insertionOuter_eq rest [x]
  simpa [sortSort, wrappedVersions.Len] using h

theorem insertDesc_mem (x : version) (r : List version) (z : version) :
    z ∈ insertDesc x r ↔ z = x ∨ z ∈ r := by
  induction r with
  | nil => simp [insertDesc]
  | cons y r ih =>
    unfold insertDesc
    split
    · simp only [List.mem_cons, ih]
      tauto
    · simp

theorem insertDesc_headMax (x : version) (r : List version) (h : HeadMax r) :
    HeadMax (insertDesc x r) := by
  obtain ⟨m, rest, rfl, hmax⟩ := h
  unfold insertDesc
  by_cases hx : x.Number < m.Number
  · simp only [hx, if_true]
    refine ⟨m, insertDesc x rest, rfl, ?_⟩
    intro y hy
    rcases List.mem_cons.1 hy with rfl | hy
    · exact le_refl _
    · rcases (insertDesc_mem x rest y).1 hy with rfl | hy
      · exact le_of_lt hx
      · exact hmax y (List.mem_cons_of_mem _ hy)
  · simp only [hx, if_false]
    refine ⟨x, m :: rest, rfl, ?_⟩
    intro y hy
    rcases List.mem_cons.1 hy with rfl | hy
    · exact le_refl _
    · exact le_trans (hmax y hy) (not_lt.1 hx)

theorem foldl_insertDesc (post : List version) :
    ∀ r : List version, HeadMax r →
      HeadMax (post.foldl (fun acc x => insertDesc x acc) r) ∧
      ∀ z, z ∈ post.foldl (fun acc x => insertDesc x acc) r ↔ z ∈ r ∨ z ∈ post := by
  induction post with
  | nil => intro r h; simp [h]
  | cons x post ih =>
    intro r h
    obtain ⟨h1, h2⟩ := ih (insertDesc x r) (insertDesc_headMax x r h)
    refine ⟨h1, ?_⟩
    intro z
    rw [List.foldl_cons, h2 z, insertDesc_mem, List.mem_cons]
    tauto

/-- What `wv[len(wv)-1]` is after `sort.Sort(wv)` on a non-empty slice: an element
of the slice whose number is greatest. -/
theorem sortSort_last (wv : wrappedVersions) (hne : wv ≠ []) :
    ∃ last, sliceIndex (sortSort wv) (((sortSort wv).Len : Int) - 1) = .ret last ∧
      last ∈ wv ∧ ∀ y ∈ wv, y.Number ≤ last.Number := by
  cases wv with
  | nil => exact absurd rfl hne
  | cons x rest =>
    have hhm : HeadMax [x] := ⟨x, [], rfl, by simp⟩
    obtain ⟨⟨m, tl, hr, hmax⟩, hmem⟩ := foldl_insertDesc rest [x] hhm
    refine ⟨m, ?_, ?_, ?_⟩
    · rw [sortSort_eq, hr]
      unfold sliceIndex wrappedVersions.Len
      simp
    · have := (hmem m).1 (by rw [hr]; simp)
      simpa using this
    · intro y hy
      apply hmax
      apply (hmem y).2
      simpa using hy

theorem sortSort_nil : sortSort [] = [] := rfl

/-! ## getLatestVCLVersion -/

theorem wrapVersions_ok (vs : List FastlyVersion) :
    ∀ acc : wrappedVersions, (∀ v ∈ vs, ∃ n, Atoi v.Number = .ok n) →
      ∃ wv : wrappedVersions, wrapVersions vs acc = .ok (acc ++ wv) ∧
        wv.map (fun w => w.Version) = vs ∧
        ∀ w ∈ wv, Atoi w.Version.Number = .ok w.Number := by
  induction vs with
  | nil => intro acc _; exact ⟨[], by simp [wrapVersions], rfl, by simp⟩
  | cons v vs ih =>
    intro acc h
    obtain ⟨n, hn⟩ := h v (List.mem_cons_self _ _)
    obtain ⟨wv, h1, h2, h3⟩ := ih (acc ++ [⟨n, v⟩]) (fun u hu => h u (List.mem_cons_of_mem _ hu))
    refine ⟨⟨n, v⟩ :: wv, ?_, ?_, ?_⟩
    · simp only [wrapVersions, hn, h1]
      simp
    · simp [h2]
    · intro w hw
      rcases List.mem_cons.1 hw with rfl | hw
      · exact hn
      · exact h3 w hw

/-- The whole of `getLatestVCLVersion` on a successful, non-empty, well-formed
listing. -/
theorem getLatestVCLVersion_ok {σ : Type} (client : Client σ) (s : State σ)
    (listVersions : List FastlyVersion) (remote : σ)
    (hlist : client.ListVersions s.fastlyServiceID s.remote = (.ok listVersions, remote))
    (hne : listVersions ≠ [])
    (hvalid : ∀ v ∈ listVersions, ∃ n, Atoi v.Number = .ok n) :
    ∃ m : Int,
      getLatestVCLVersion client s
        = (.ret (.ok (Itoa m)), s.called (.ListVersions s.fastlyServiceID) remote) ∧
      (∃ v ∈ listVersions, Atoi v.Number = .ok m) ∧
      (∀ v ∈ listVersions, ∀ n, Atoi v.Number = .ok n → n ≤ m) := by
  obtain ⟨wv, h1, h2, h3⟩ := wrapVersions_ok listVersions [] hvalid
  have hwne : wv ≠ [] := by
    intro h
    subst h
    exact hne h2.symm
  obtain ⟨last, hl1, hl2, hl3⟩ := sortSort_last wv hwne
  refine ⟨last.Number, ?_, ?_, ?_⟩
  · unfold getLatestVCLVersion
    rw [hlist]
    simp only [h1, List.nil_append, hl1]
  · refine ⟨last.Version, ?_, h3 last hl2⟩
    rw [← h2]
    exact List.mem_map_of_mem _ hl2
  · intro v hv n hn
    rw [← h2] at hv
    obtain ⟨w, hw, rfl⟩ := List.mem_map.1 hv
    have := h3 w hw
    rw [hn] at this
    injection this with this
    rw [this]
    exact hl3 w hw

theorem getLatestVCLVersion_empty {σ : Type} (client : Client σ) (s : State σ) (remote : σ)
    (hlist : client.ListVersions s.fastlyServiceID s.remote = (.ok [], remote)) :
    getLatestVCLVersion client s
      = (.panic "runtime error: index out of range",
         s.called (.ListVersions s.fastlyServiceID) remote) := by
  unfold getLatestVCLVersion
  rw [hlist]
  rfl

/-! ## Splitting paths -/

theorem stringsSplit_head (sep : Char) (s : List Char) :
    ∃ rest, stringsSplit s sep = s.takeWhile (fun c => c != sep) :: rest := by
  induction s with
  | nil => exact ⟨[], rfl⟩
  | cons c cs ih =>
    obtain ⟨rest, hr⟩ := ih
    by_cases hc : c = sep
    · exact ⟨stringsSplit cs sep, by simp [stringsSplit, hc]⟩
    · exact ⟨rest, by simp [stringsSplit, hc, hr]⟩

theorem extractName_data (path : String) :
    (extractName path).data = (filepathSplit path).2.data.takeWhile (fun c => c != '.') := by
  obtain ⟨rest, hr⟩ := stringsSplit_head '.' (filepathSplit path).2.data
  unfold extractName
  simp only [hr]

theorem takeWhile_ne_not_mem (sep : Char) (l : List Char) :
    sep ∉ l.takeWhile (fun c => c != sep) := by
  intro h
  have := List.mem_takeWhile_imp h
  simp at this

theorem dropWhile_ne_head (sep : Char) (l : List Char) :
    l.dropWhile (fun c => c != sep) = [] ∨ (l.dropWhile (fun c => c != sep)).head? = some sep := by
  induction l with
  | nil => left; rfl
  | cons c cs ih =>
    by_cases hc : c = sep
    · right
      simp [List.dropWhile_cons, hc]
    · have hb : (c != sep) = true := by simp [hc]
      rw [List.dropWhile_cons, if_pos hb]
      exact ih

theorem filepathSplit_append (path : String) :
    path.data = (filepathSplit path).1.data ++ (filepathSplit path).2.data := by
  unfold filepathSplit
  simp only
  rw [← List.reverse_append, List.takeWhile_append_dropWhile, List.reverse_reverse]

theorem filepathSplit_file (path : String) : '/' ∉ (filepathSplit path).2.data := by
  unfold filepathSplit
  simp only [List.mem_reverse]
  exact takeWhile_ne_not_mem '/' _

theorem filepathSplit_dir (path : String) :
    (filepathSplit path).1.data = [] ∨ (filepathSplit path).1.data.getLast? = some '/' := by
  unfold filepathSplit
  simp only [List.getLast?_reverse, List.reverse_eq_nil_iff]
  exact dropWhile_ne_head '/' _

theorem mem_takeWhile_mem {p : Char → Bool} {l : List Char} {c : Char}
    (h : c ∈ l.takeWhile p) : c ∈ l :=
  (List.takeWhile_sublist p).subset h

/-! ## The default patterns -/

theorem regexpCompile_skip :
    regexpCompile "^____" = some [.beginText, .lit '_', .lit '_', .lit '_', .lit '_'] := by
  decide

theorem regexpCompile_empty : regexpCompile "" = some [] := by decide

theorem matchFrom_nil (atStart : Bool) (text : List Char) : matchFrom [] atStart text = true := by
  cases text <;> simp [matchFrom, matchHere]

theorem matchFrom_beginText_false (re : Regexp) (text : List Char) :
    matchFrom (.beginText :: re) false text = false := by
  induction text with
  | nil => simp [matchFrom, matchHere]
  | cons c cs ih => simp [matchFrom, matchHere, ih]

theorem matchFrom_skip (text : List Char) :
    matchFrom [.beginText, .lit '_', .lit '_', .lit '_', .lit '_'] true text
      = "____".data.isPrefixOf text := by
  have hfalse := matchFrom_beginText_false [.lit '_', .lit '_', .lit '_', .lit '_']
  rcases text with _ | ⟨a, _ | ⟨b, _ | ⟨c, _ | ⟨d, t⟩⟩⟩⟩ <;>
    simp [matchFrom, matchHere, hfalse, List.isPrefixOf, Bool.and_assoc]

/-! ## Remote calls of the version queries -/

theorem getLatestVCLVersion_state {σ : Type} (client : Client σ) (s : State σ) :
    (getLatestVCLVersion client s).2
      = s.called (.ListVersions s.fastlyServiceID)
          (client.ListVersions s.fastlyServiceID s.remote).2 := by
  unfold getLatestVCLVersion
  rcases hl : client.ListVersions s.fastlyServiceID s.remote with ⟨res, remote⟩
  cases res with
  | error err => rfl
  | ok listVersions =>
    simp only
    cases wrapVersions listVersions [] with
    | error err => rfl
    | ok wv =>
      simp only
      cases sliceIndex (sortSort wv) (((sortSort wv).Len : Int) - 1) <;> rfl

/-! ## The pool invariant and progress of the goroutines -/

theorem get?_split {α : Type} (l : List α) :
    ∀ (i : Nat) (t : α), l.get? i = some t →
      ∃ l1 l2, l = l1 ++ t :: l2 ∧ l1.length = i ∧ ∀ u, l.set i u = l1 ++ u :: l2 := by
  induction l with
  | nil => intro i t h; simp at h
  | cons a l ih =>
    intro i t h
    cases i with
    | zero =>
      simp at h
      subst h
      exact ⟨[], l, rfl, rfl, fun _ => rfl⟩
    | succ i =>
      obtain ⟨l1, l2, h1, h2, h3⟩ := ih i t (by simpa using h)
      refine ⟨a :: l1, l2, by simp [h1], by simp [h2], ?_⟩
      intro u
      simp [h3 u]

/-- Effect of one step on the channel and on what the goroutine owes. -/
theorem uploadVCLStep_effect {σ : Type} (env : Env) (client : Client σ) (t : Task)
    (s : State σ) (hn : t.Named) (hroom : t.pending ≠ none → s.ch.length < s.chCap) :
    (uploadVCLStep env client t s).2.chCap = s.chCap ∧
    (uploadVCLStep env client t s).1.Named ∧
    (uploadVCLStep env client t s).1.rank ≤ t.rank - 1 ∧
    (((uploadVCLStep env client t s).2.ch = s.ch ∧
        (uploadVCLStep env client t s).1.pending = t.pending) ∨
      ∃ r, t = .send r ∧ (uploadVCLStep env client t s).1 = .done ∧
        (uploadVCLStep env client t s).2.ch = s.ch ++ [r]) := by
  cases t with
  | entry path =>
    simp only [uploadVCLStep]
    cases getLocalVCL env path with
    | error err => exact ⟨rfl, rfl, by simp [Task.rank], Or.inl ⟨rfl, rfl⟩⟩
    | ok content => exact ⟨rfl, rfl, by simp [Task.rank], Or.inl ⟨rfl, rfl⟩⟩
  | create path name content =>
    simp only [uploadVCLStep]
    rcases client.CreateVCL s.fastlyServiceID s.selectedVersion name content s.remote
      with ⟨res, remote⟩
    cases res with
    | error err => exact ⟨rfl, hn, by simp [Task.rank], Or.inl ⟨rfl, rfl⟩⟩
    | ok v => exact ⟨rfl, hn, by simp [Task.rank], Or.inl ⟨rfl, rfl⟩⟩
  | update path name content =>
    simp only [uploadVCLStep]
    rcases client.UpdateVCL s.fastlyServiceID s.selectedVersion name content s.remote
      with ⟨res, remote⟩
    cases res with
    | error err => exact ⟨rfl, hn, by simp [Task.rank], Or.inl ⟨rfl, rfl⟩⟩
    | ok v => exact ⟨rfl, hn, by simp [Task.rank], Or.inl ⟨rfl, rfl⟩⟩
  | send r =>
    have h := hroom (by simp [Task.pending])
    have hstep : uploadVCLStep env client (.send r) s
        = (.done, { s with ch := s.ch ++ [r] }) := by
      simp [uploadVCLStep, h]
    rw [hstep]
    exact ⟨rfl, trivial, by simp [Task.rank], Or.inr ⟨r, rfl, rfl, rfl⟩⟩
  | done => exact ⟨rfl, trivial, by simp [Task.rank, uploadVCLStep], Or.inl ⟨rfl, rfl⟩⟩

theorem PoolInv.room {σ : Type} {paths : List String} {p : Pool σ} (h : PoolInv paths p)
    (i : Nat) (t : Task) (ht : p.1.get? i = some t) (hp : t.pending ≠ none) :
    p.2.ch.length < p.2.chCap := by
  obtain ⟨l1, l2, h1, _, _⟩ := get?_split p.1 i t ht
  have hlen := h.perm.length_eq
  rw [h.cap, ← hlen, h1]
  cases hpt : t.pending with
  | none => exact absurd hpt hp
  | some q =>
    simp [List.filterMap_append, List.filterMap_cons, hpt]

theorem stepTask_inv {σ : Type} (env : Env) (client : Client σ) (paths : List String)
    (i : Nat) (p : Pool σ) (h : PoolInv paths p) : PoolInv paths (stepTask env client i p) := by
  unfold stepTask
  cases ht : p.1.get? i with
  | none => exact h
  | some t =>
    simp only
    obtain ⟨l1, l2, h1, h2, h3⟩ := get?_split p.1 i t ht
    have hn : t.Named := h.tasks t (by rw [h1]; simp)
    obtain ⟨e1, e2, _, e4⟩ := uploadVCLStep_effect env client t p.2 hn (h.room i t ht)
    have hperm := h.perm
    rw [h1] at hperm
    refine ⟨by rw [e1]; exact h.cap, ?_, ?_, ?_⟩
    · rw [h3]
      rcases e4 with ⟨c1, c2⟩ | ⟨r, c1, c2, c3⟩
      · rw [c1]
        simpa [List.filterMap_append, List.filterMap_cons, c2] using hperm
      · rw [c3, c2]
        subst c1
        simp only [List.filterMap_append, List.filterMap_cons, Task.pending, List.map_append,
          List.map_cons, List.map_nil, List.append_assoc] at hperm ⊢
        refine List.Perm.trans ?_ hperm
        apply List.Perm.append_left
        simp only [List.singleton_append]
        exact List.perm_middle.symm
    · intro r hr
      rcases e4 with ⟨c1, _⟩ | ⟨r0, c1, _, c3⟩
      · rw [c1] at hr
        exact h.names r hr
      · rw [c3] at hr
        rcases List.mem_append.1 hr with hr | hr
        · exact h.names r hr
        · simp only [List.mem_singleton] at hr
          subst hr
          subst c1
          exact hn
    · intro u hu
      rw [h3] at hu
      rcases List.mem_append.1 hu with hu | hu
      · exact h.tasks u (by rw [h1]; simp [hu])
      · rcases List.mem_cons.1 hu with rfl | hu
        · exact e2
        · exact h.tasks u (by rw [h1]; simp [hu])

theorem runSchedule_inv {σ : Type} (env : Env) (client : Client σ) (paths : List String)
    (sched : List Nat) : ∀ p : Pool σ, PoolInv paths p →
      PoolInv paths (runSchedule env client sched p) := by
  induction sched with
  | nil => intro p h; exact h
  | cons i rest ih => intro p h; exact ih _ (stepTask_inv env client paths i p h)

theorem runSchedule_append {σ : Type} (env : Env) (client : Client σ) (a b : List Nat) :
    ∀ p : Pool σ, runSchedule env client (a ++ b) p
      = runSchedule env client b (runSchedule env client a p) := by
  induction a with
  | nil => intro p; rfl
  | cons i rest ih => intro p; exact ih _

theorem stepTask_length {σ : Type} (env : Env) (client : Client σ) (i : Nat) (p : Pool σ) :
    (stepTask env client i p).1.length = p.1.length := by
  unfold stepTask
  cases p.1.get? i <;> simp

theorem runSchedule_length {σ : Type} (env : Env) (client : Client σ) (sched : List Nat) :
    ∀ p : Pool σ, (runSchedule env client sched p).1.length = p.1.length := by
  induction sched with
  | nil => intro p; rfl
  | cons i rest ih => intro p; rw [runSchedule, ih, stepTask_length]

theorem stepTask_done {σ : Type} (env : Env) (client : Client σ) (i j : Nat) (p : Pool σ)
    (h : p.1.get? j = some .done) : (stepTask env client i p).1.get? j = some .done := by
  unfold stepTask
  cases ht : p.1.get? i with
  | none => exact h
  | some t =>
    simp only
    by_cases hij : i = j
    · subst hij
      rw [h] at ht
      injection ht with ht
      subst ht
      obtain ⟨l1, l2, h1, h2, h3⟩ := get?_split p.1 i .done h
      rw [h3, ← h2]
      simp only [uploadVCLStep]
      exact get?_append_length l1 .done l2
    · simp [List.getElem?_set, hij] at h ⊢
      exact h

theorem runSchedule_done {σ : Type} (env : Env) (client : Client σ) (sched : List Nat)
    (j : Nat) : ∀ p : Pool σ, p.1.get? j = some .done →
      (runSchedule env client sched p).1.get? j = some .done := by
  induction sched with
  | nil => intro p h; exact h
  | cons i rest ih => intro p h; exact ih _ (stepTask_done env client i j p h)

theorem Task.rank_eq_zero (t : Task) (h : t.rank = 0) : t = .done := by
  cases t <;> simp [Task.rank] at h ⊢

theorem stepTask_rank {σ : Type} (env : Env) (client : Client σ) (paths : List String)
    (i : Nat) (p : Pool σ) (h : PoolInv paths p) (t : Task) (ht : p.1.get? i = some t) :
    ∃ u, (stepTask env client i p).1.get? i = some u ∧ u.rank ≤ t.rank - 1 := by
  obtain ⟨l1, l2, h1, h2, h3⟩ := get?_split p.1 i t ht
  have hn : t.Named := h.tasks t (by rw [h1]; simp)
  obtain ⟨_, _, e3, _⟩ := uploadVCLStep_effect env client t p.2 hn (h.room i t ht)
  refine ⟨(uploadVCLStep env client t p.2).1, ?_, e3⟩
  unfold stepTask
  rw [ht]
  simp only
  rw [h3, ← h2]
  exact get?_append_length l1 _ l2

theorem runSchedule_replicate_done {σ : Type} (env : Env) (client : Client σ)
    (paths : List String) (i : Nat) (n : Nat) :
    ∀ (p : Pool σ) (t : Task), PoolInv paths p → p.1.get? i = some t → t.rank ≤ n →
      (runSchedule env client (List.replicate n i) p).1.get? i = some .done := by
  induction n with
  | zero =>
    intro p t _ ht hr
    have := Task.rank_eq_zero t (by omega)
    subst this
    exact ht
  | succ n ih =>
    intro p t h ht hr
    obtain ⟨u, hu, hur⟩ := stepTask_rank env client paths i p h t ht
    rw [List.replicate_succ, runSchedule]
    exact ih _ u (stepTask_inv env client paths i p h) hu (by omega)

theorem Task.rank_le_four (t : Task) : t.rank ≤ 4 := by
  cases t <;> simp [Task.rank]

theorem runSchedule_drain {σ : Type} (env : Env) (client : Client σ) (paths : List String)
    (idx : List Nat) : ∀ (p : Pool σ), PoolInv paths p → (∀ i ∈ idx, i < p.1.length) →
      ∀ i ∈ idx, (runSchedule env client (idx.flatMap fun i => List.replicate 4 i) p).1.get? i
        = some .done := by
  induction idx with
  | nil => intro p _ _ i hi; simp at hi
  | cons j rest ih =>
    intro p h hlt i hi
    rw [List.flatMap_cons, runSchedule_append]
    have hj : j < p.1.length := hlt j (List.mem_cons_self _ _)
    obtain ⟨t, ht⟩ : ∃ t, p.1.get? j = some t := ⟨p.1.get ⟨j, hj⟩, List.get?_eq_get hj⟩
    have hdone := runSchedule_replicate_done env client paths j 4 p t h ht t.rank_le_four
    have hinv := runSchedule_inv env client paths (List.replicate 4 j) p h
    rcases List.mem_cons.1 hi with rfl | hi
    · exact runSchedule_done env client _ _ _ hdone
    · apply ih _ hinv _ i hi
      intro k hk
      rw [runSchedule_length]
      exact hlt k (List.mem_cons_of_mem _ hk)

theorem filterMap_pending_entry (paths : List String) :
    (paths.map Task.entry).filterMap Task.pending = paths := by
  induction paths with
  | nil => rfl
  | cons a l ih => simp [Task.pending, ih]

theorem PoolInv.init {σ : Type} (s : State σ) :
    PoolInv s.vclFiles
      ((s.vclFiles.map Task.entry, { s with ch := [], chCap := s.vclFiles.length }) : Pool σ) := by
  refine ⟨rfl, ?_, ?_, ?_⟩
  · show (([] : List vclResponse).map (fun r => r.Path)
      ++ (s.vclFiles.map Task.entry).filterMap Task.pending).Perm s.vclFiles
    rw [filterMap_pending_entry]
    exact List.Perm.refl _
  · intro r hr
    simp at hr
  · intro t ht
    obtain ⟨a, _, rfl⟩ := List.mem_map.1 ht
    trivial

theorem all_done_of_get? (ts : List Task)
    (h : ∀ i, i < ts.length → ts.get? i = some .done) : ∀ t ∈ ts, t = .done := by
  intro t ht
  obtain ⟨n, hn⟩ := List.get_of_mem ht
  have := h n.1 n.2
  rw [List.get?_eq_get n.2] at this
  injection this with this
  rw [← hn]
  exact this

theorem filterMap_pending_done (ts : List Task) (h : ∀ t ∈ ts, t = .done) :
    ts.filterMap Task.pending = [] := by
  induction ts with
  | nil => rfl
  | cons a l ih =>
    have ha := h a (List.mem_cons_self _ _)
    subst ha
    simp only [List.filterMap_cons, Task.pending]
    exact ih (fun t ht => h t (List.mem_cons_of_mem _ ht))
/-! ## Supporting lemmas for the claims -/

/-- Under `-clone-version V`, a successful clone leaves `selectedVersion` equal to
`V`, whatever number the clone has. -/
theorem resolveVersion_cloneFrom {σ : Type} (client : Client σ) (flags : Flags) (s : State σ)
    (clonedVersion : FastlyVersion) (remote1 : σ) (hflag : flags.cloneVersion ≠ "")
    (hclone : client.CloneVersion s.fastlyServiceID flags.cloneVersion s.remote
      = (.ok clonedVersion, remote1)) :
    (resolveVersion client flags s).1 = .running ∧
    (resolveVersion client flags s).2.selectedVersion = flags.cloneVersion := by
  unfold resolveVersion cloneFromVersion
  simp [hflag, hclone]

/-- Under the default policy, a successful clone of the latest version makes the
clone's number the target. -/
theorem resolveVersion_default {σ : Type} (client : Client σ) (flags : Flags) (s : State σ)
    (latest : String) (clonedVersion : FastlyVersion) (remote2 : σ)
    (hc : flags.cloneVersion = "") (hu : flags.uploadVersion = "")
    (hl : flags.useLatestVersion = false)
    (hlatest : (getLatestVCLVersion client s).1 = .ret (.ok latest))
    (hclone : client.CloneVersion s.fastlyServiceID latest
      (client.ListVersions s.fastlyServiceID s.remote).2 = (.ok clonedVersion, remote2)) :
    (resolveVersion client flags s).1 = .running ∧
    (resolveVersion client flags s).2.selectedVersion = clonedVersion.Number := by
  have hst := getLatestVCLVersion_state client s
  rcases hg : getLatestVCLVersion client s with ⟨res, s1⟩
  rw [hg] at hst hlatest
  simp only at hst hlatest
  subst hst
  subst hlatest
  unfold resolveVersion cloneFromVersion
  simp [hc, hu, hl, hg, State.called, hclone]

/-- Under `-upload-version V`, resolution goes on only after `GetVersion` has
reported V as not active, and V is then the target. -/
theorem resolveVersion_uploadTo {σ : Type} (client : Client σ) (flags : Flags) (s : State σ)
    (hc : flags.cloneVersion = "") (hu : flags.uploadVersion ≠ "")
    (hrun : (resolveVersion client flags s).1 = .running) :
    ∃ v remote1, client.GetVersion s.fastlyServiceID flags.uploadVersion s.remote
        = (.ok v, remote1) ∧ v.Active = false ∧
      (resolveVersion client flags s).2.selectedVersion = flags.uploadVersion := by
  unfold resolveVersion at hrun ⊢
  simp only [hc, hu, ne_eq, not_true_eq_false, not_false_eq_true, if_false, if_true] at hrun ⊢
  rcases hg : client.GetVersion s.fastlyServiceID flags.uploadVersion s.remote with ⟨res, remote1⟩
  rw [hg] at hrun
  cases res with
  | error err => simp at hrun
  | ok v =>
    cases hv : v.Active with
    | true => simp [hv] at hrun
    | false => exact ⟨v, remote1, rfl, hv, by simp [hv]⟩

/-- Under `-use-latest-version`, resolution goes on only after `GetVersion` has
reported the latest version as not active, and that version is then the target. -/
theorem resolveVersion_useLatest {σ : Type} (client : Client σ) (flags : Flags) (s : State σ)
    (hc : flags.cloneVersion = "") (hu : flags.uploadVersion = "")
    (hl : flags.useLatestVersion = true)
    (hrun : (resolveVersion client flags s).1 = .running) :
    ∃ latest v remote2, (getLatestVCLVersion client s).1 = .ret (.ok latest) ∧
      client.GetVersion s.fastlyServiceID latest
        (client.ListVersions s.fastlyServiceID s.remote).2 = (.ok v, remote2) ∧
      v.Active = false ∧
      (resolveVersion client flags s).2.selectedVersion = latest := by
  have hst := getLatestVCLVersion_state client s
  unfold resolveVersion at hrun ⊢
  rcases hg : getLatestVCLVersion client s with ⟨res, s1⟩
  rw [hg] at hst hrun
  simp only at hst
  subst hst
  simp only [hc, hu, hl, ne_eq, not_true_eq_false, if_false, if_true, State.called] at hrun ⊢
  rcases res with (err | latest) | msg
  · simp at hrun
  · simp only at hrun ⊢
    rcases hgv : client.GetVersion s.fastlyServiceID latest
        (client.ListVersions s.fastlyServiceID s.remote).2 with ⟨gres, remote2⟩
    rw [hgv] at hrun
    cases gres with
    | error err => simp at hrun
    | ok v =>
      cases hv : v.Active with
      | true => simp [hv] at hrun
      | false => exact ⟨latest, v, remote2, rfl, hgv, hv, by simp [hgv, hv]⟩
  · simp at hrun

/-- Run without interruption, `uploadVCL` ends after sending exactly one result,
which carries the input path and the name derived from it. -/
theorem uploadVCL_sends_once {σ : Type} (env : Env) (client : Client σ) (path : String)
    (s : State σ) (hroom : s.ch.length < s.chCap) :
    ∃ r s1, uploadVCL env client path s = (.done, s1) ∧ s1.ch = s.ch ++ [r] ∧
      r.Path = path ∧ r.Name = extractName path := by
  unfold uploadVCL
  simp only [runTask, uploadVCLStep]
  cases getLocalVCL env path with
  | error err =>
    simp only [uploadVCLStep, hroom, if_true]
    exact ⟨_, _, rfl, rfl, rfl, rfl⟩
  | ok content =>
    simp only [uploadVCLStep]
    rcases client.CreateVCL s.fastlyServiceID s.selectedVersion (extractName path) content
      s.remote with ⟨cres, remote1⟩
    cases cres with
    | ok vclFile =>
      simp only [uploadVCLStep, State.called, hroom, if_true]
      exact ⟨_, _, rfl, rfl, rfl, rfl⟩
    | error err =>
      simp only [uploadVCLStep, State.called, State.print]
      rcases client.UpdateVCL s.fastlyServiceID s.selectedVersion (extractName path) content
        remote1 with ⟨ures, remote2⟩
      cases ures with
      | ok vclFileUpdate =>
        simp only [uploadVCLStep, hroom, if_true]
        exact ⟨_, _, rfl, rfl, rfl, rfl⟩
      | error updateErr =>
        simp only [uploadVCLStep, hroom, if_true]
        exact ⟨_, _, rfl, rfl, rfl, rfl⟩

/-! ## The claims -/

/-- Claim C1.  When `ListVersions` succeeds with a non-empty listing all of whose
numbers `strconv.Atoi` accepts, `getLatestVCLVersion` returns `Itoa m` for an
integer `m` that reads back as `m`, is the number of a listed version, and is at
least every listed number; for the listing "3", "1", "10" in any order the
result is "10". -/
theorem getLatestVCLVersion_greatest {σ : Type} (client : Client σ) (s : State σ)
    (listVersions : List FastlyVersion) (remote : σ)
    (hlist : client.ListVersions s.fastlyServiceID s.remote = (.ok listVersions, remote))
    (hne : listVersions ≠ [])
    (hvalid : ∀ v ∈ listVersions, ∃ n, Atoi v.Number = .ok n) :
    ∃ m : Int,
      (getLatestVCLVersion client s).1 = .ret (.ok (Itoa m)) ∧
      Atoi (Itoa m) = .ok m ∧
      (∃ v ∈ listVersions, Atoi v.Number = .ok m) ∧
      (∀ v ∈ listVersions, ∀ n, Atoi v.Number = .ok n → n ≤ m) ∧
      ((listVersions.map fun v => v.Number).Perm ["3", "1", "10"] →
        (getLatestVCLVersion client s).1 = .ret (.ok "10")) := by
  obtain ⟨m, h1, ⟨v, hv, hvm⟩, h3⟩ := getLatestVCLVersion_ok client s listVersions remote hlist hne hvalid
  have hr := Atoi_range _ _ hvm
  refine ⟨m, by rw [h1], Atoi_Itoa m hr.1 hr.2, ⟨v, hv, hvm⟩, h3, ?_⟩
  intro hperm
  have hmem : ∀ x, x ∈ (listVersions.map fun v => v.Number) ↔ x ∈ ["3", "1", "10"] :=
    fun x => hperm.mem_iff
  obtain ⟨u, hu, hu10⟩ := List.mem_map.1 ((hmem "10").2 (by simp))
  have h10 : (10 : Int) ≤ m := h3 u hu 10 (by rw [hu10]; rfl)
  have hvn := (hmem v.Number).1 (List.mem_map_of_mem _ hv)
  have hm : m = 10 := by
    simp only [List.mem_cons, List.mem_singleton, List.not_mem_nil, or_false] at hvn
    rcases hvn with h | h | h
    · rw [h] at hvm
      have : (3 : Int) = m := by injection hvm
      omega
    · rw [h] at hvm
      have : (1 : Int) = m := by injection hvm
      omega
    · rw [h] at hvm
      have : (10 : Int) = m := by injection hvm
      omega
  rw [h1, hm]
  rfl

/-- Claim C1 at the listing "3", "1", "10" of the reference service. -/
theorem getLatestVCLVersion_greatest_witness :
    fastly.ListVersions "svc" ⟨[⟨"3", false⟩, ⟨"1", false⟩, ⟨"10", true⟩], []⟩
      = (.ok [⟨"3", false⟩, ⟨"1", false⟩, ⟨"10", true⟩],
         ⟨[⟨"3", false⟩, ⟨"1", false⟩, ⟨"10", true⟩], []⟩) ∧
    (getLatestVCLVersion fastly
      (sampleState ⟨[⟨"3", false⟩, ⟨"1", false⟩, ⟨"10", true⟩], []⟩)).1 = .ret (.ok "10") := by
  refine ⟨rfl, ?_⟩
  obtain ⟨m, _, _, _, _, h⟩ := getLatestVCLVersion_greatest fastly
    (sampleState ⟨[⟨"3", false⟩, ⟨"1", false⟩, ⟨"10", true⟩], []⟩)
    [⟨"3", false⟩, ⟨"1", false⟩, ⟨"10", true⟩]
    ⟨[⟨"3", false⟩, ⟨"1", false⟩, ⟨"10", true⟩], []⟩ rfl (by simp)
    (by
      intro v hv
      simp only [List.mem_cons, List.mem_singleton, List.not_mem_nil, or_false] at hv
      rcases hv with rfl | rfl | rfl
      · exact ⟨3, rfl⟩
      · exact ⟨1, rfl⟩
      · exact ⟨10, rfl⟩)
  exact h (List.Perm.refl _)

/-- Claim C2, evaluated: with `-clone-version 1` on a service whose only version
is "1", the clone succeeds and has number "2", yet `selectedVersion` is "1" and
both fragment create calls go to version "1". -/
theorem clone_from_targets_source_version :
    (fastly.CloneVersion "svc" "1" ⟨[⟨"1", false⟩], []⟩).1 = .ok ⟨"2", false⟩ ∧
    (main sampleEnv fastly { sampleFlags with cloneVersion := "1" } []
      ⟨[⟨"1", false⟩], []⟩).1 = .returned ∧
    (main sampleEnv fastly { sampleFlags with cloneVersion := "1" } []
      ⟨[⟨"1", false⟩], []⟩).2.selectedVersion = "1" ∧
    (main sampleEnv fastly { sampleFlags with cloneVersion := "1" } []
      ⟨[⟨"1", false⟩], []⟩).2.calls =
      [.CloneVersion "svc" "1",
       .CreateVCL "svc" "1" "main" "sub vcl_recv",
       .CreateVCL "svc" "1" "x" "sub vcl_recv"] := by
  refine ⟨rfl, by decide, by decide, by decide⟩

/-- Claim C3, evaluated: with `-clone-version 2` on a service whose version "2" is
active, resolution succeeds with target "2", version "2" is active in the service
state when resolution ends, and the fragment create and update calls are issued
against it. -/
theorem clone_from_uploads_to_active_version :
    (resolveVersion fastly { sampleFlags with cloneVersion := "2" }
      (sampleState ⟨[⟨"1", false⟩, ⟨"2", true⟩], []⟩)).1 = .running ∧
    (resolveVersion fastly { sampleFlags with cloneVersion := "2" }
      (sampleState ⟨[⟨"1", false⟩, ⟨"2", true⟩], []⟩)).2.selectedVersion = "2" ∧
    (resolveVersion fastly { sampleFlags with cloneVersion := "2" }
      (sampleState ⟨[⟨"1", false⟩, ⟨"2", true⟩], []⟩)).2.remote.find "2"
        = some ⟨"2", true⟩ ∧
    (main sampleEnv fastly { sampleFlags with cloneVersion := "2" } []
      ⟨[⟨"1", false⟩, ⟨"2", true⟩], []⟩).2.calls =
      [.CloneVersion "svc" "2",
       .CreateVCL "svc" "2" "main" "sub vcl_recv",
       .UpdateVCL "svc" "2" "main" "sub vcl_recv",
       .CreateVCL "svc" "2" "x" "sub vcl_recv",
       .UpdateVCL "svc" "2" "x" "sub vcl_recv"] := by
  refine ⟨by decide, by decide, by decide, by decide⟩

/-- Claim C4.  Under `-upload-version V` (no earlier mode flag, no
`-clone-version`), if `GetVersion` reports V active the run exits with status 1
after printing the already-activated message, and if `GetVersion` fails the run
exits with status 1 after printing that error; in both cases the only remote
call of the whole run is that `GetVersion`, so no clone and no fragment call is
made, and the channel stays empty. -/
theorem main_upload_to_guard {σ : Type} (env : Env) (client : Client σ) (flags : Flags)
    (sched : List Nat) (remote : σ)
    (hhelp : flags.help = false) (happ : flags.appVersion = false)
    (hnew : env.NewClient flags.token = none)
    (hget : flags.getLatestVersion = false) (hact : flags.activateVersion = "")
    (hstat : flags.statusVersion = "")
    (hclone : flags.cloneVersion = "") (hup : flags.uploadVersion ≠ "") :
    match client.GetVersion flags.service flags.uploadVersion remote with
    | (.ok getVersion, remote1) =>
      getVersion.Active = true →
        (main env client flags sched remote).1 = .exited 1 ∧
        (main env client flags sched remote).2.calls
          = [.GetVersion flags.service flags.uploadVersion] ∧
        (main env client flags sched remote).2.stdout
          = ["Sorry, the specified version is already activated\n"] ∧
        (main env client flags sched remote).2.remote = remote1 ∧
        (main env client flags sched remote).2.ch = []
    | (.error err, remote1) =>
      (main env client flags sched remote).1 = .exited 1 ∧
      (main env client flags sched remote).2.calls
        = [.GetVersion flags.service flags.uploadVersion] ∧
      (main env client flags sched remote).2.stdout = [err ++ "\n"] ∧
      (main env client flags sched remote).2.remote = remote1 ∧
      (main env client flags sched remote).2.ch = [] := by
  have hmain : main env client flags sched remote
      = match client.GetVersion flags.service flags.uploadVersion remote with
        | (.error err, remote1) =>
          (.exited 1, { initState remote1 with
            dirSkipRegex := regexpCompile
              (if env.VCL_SKIP_DIRECTORY ≠ "" then env.VCL_SKIP_DIRECTORY else flags.skip),
            dirMatchRegex := regexpCompile
              (if env.VCL_MATCH_DIRECTORY ≠ "" then env.VCL_MATCH_DIRECTORY else flags.matchDir),
            fastlyServiceID := flags.service,
            calls := [.GetVersion flags.service flags.uploadVersion],
            stdout := [err ++ "\n"] })
        | (.ok getVersion, remote1) =>
          if getVersion.Active then
            (.exited 1, { initState remote1 with
              dirSkipRegex := regexpCompile
                (if env.VCL_SKIP_DIRECTORY ≠ "" then env.VCL_SKIP_DIRECTORY else flags.skip),
              dirMatchRegex := regexpCompile
                (if env.VCL_MATCH_DIRECTORY ≠ "" then env.VCL_MATCH_DIRECTORY else flags.matchDir),
              fastlyServiceID := flags.service,
              calls := [.GetVersion flags.service flags.uploadVersion],
              stdout := ["Sorry, the specified version is already activated\n"] })
          else main env client flags sched remote := by
    unfold main resolveVersion
    simp only [hhelp, happ, hnew, hget, hact, hstat, hclone, hup, initState, State.called,
      State.print, ne_eq, not_true_eq_false, not_false_eq_true, false_and, if_false, if_true,
      Bool.false_eq_true, List.nil_append]
    rcases client.GetVersion flags.service flags.uploadVersion remote with ⟨res, remote1⟩
    cases res with
    | error err => rfl
    | ok v => cases hv : v.Active <;> simp [hv]
  rcases hg : client.GetVersion flags.service flags.uploadVersion remote with ⟨res, remote1⟩
  rw [hg] at hmain
  cases res with
  | error err =>
    simp only at hmain ⊢
    rw [hmain]
    exact ⟨rfl, rfl, rfl, rfl, rfl⟩
  | ok v =>
    simp only at hmain ⊢
    intro hv
    rw [hv] at hmain
    simp only [if_true] at hmain
    rw [hmain]
    exact ⟨rfl, rfl, rfl, rfl, rfl⟩

/-- Claim C4 on the reference service: version "1" is active, version "7" does
not exist. -/
theorem main_upload_to_guard_witness :
    ((main sampleEnv fastly { sampleFlags with uploadVersion := "1" } [1, 0]
        ⟨[⟨"1", true⟩], []⟩).1 = .exited 1 ∧
      (main sampleEnv fastly { sampleFlags with uploadVersion := "1" } [1, 0]
        ⟨[⟨"1", true⟩], []⟩).2.calls = [.GetVersion "svc" "1"]) ∧
    ((main sampleEnv fastly { sampleFlags with uploadVersion := "7" } [1, 0]
        ⟨[⟨"1", true⟩], []⟩).1 = .exited 1 ∧
      (main sampleEnv fastly { sampleFlags with uploadVersion := "7" } [1, 0]
        ⟨[⟨"1", true⟩], []⟩).2.stdout = ["404 - Not Found\n"]) := by
  have h1 := main_upload_to_guard sampleEnv fastly { sampleFlags with uploadVersion := "1" }
    [1, 0] ⟨[⟨"1", true⟩], []⟩ rfl rfl rfl rfl rfl rfl rfl (by decide)
  have h7 := main_upload_to_guard sampleEnv fastly { sampleFlags with uploadVersion := "7" }
    [1, 0] ⟨[⟨"1", true⟩], []⟩ rfl rfl rfl rfl rfl rfl rfl (by decide)
  exact ⟨⟨(h1 rfl).1, (h1 rfl).2.1⟩, ⟨h7.1, h7.2.2.1⟩⟩

/-- Claim C5, evaluated: on a service that lists no versions, `ListVersions`
succeeds with the empty list and `getLatestVCLVersion` panics on the index
`wv[len(wv)-1]`; it returns neither an error value nor a version string, and
`main` ends in that panic. -/
theorem getLatestVCLVersion_empty_listing_panics :
    fastly.ListVersions "svc" ⟨[], []⟩ = (.ok [], ⟨[], []⟩) ∧
    (getLatestVCLVersion fastly (sampleState ⟨[], []⟩)).1
      = .panic "runtime error: index out of range" ∧
    (main sampleEnv fastly sampleFlags [] ⟨[], []⟩).1
      = .panicked "runtime error: index out of range" := by
  refine ⟨rfl, rfl, by decide⟩

/-- Claim C6.  A task whose create call fails moves on to the update point having
issued just that create call and sent nothing.  From there, whatever the other
goroutines did meanwhile, its next step issues exactly one update call with the
same service, version, name and content, and sends nothing yet; the result it
then holds has the task's path and name, is a success carrying the content the
update returned when the update succeeds, and otherwise is a failure carrying
"error: " followed by the update error.  Its send appends exactly that result,
and after that the task takes no further action. -/
theorem uploadVCL_create_failure_then_update {σ : Type} (env : Env) (client : Client σ)
    (path name content : String) (s : State σ) (createErr : GoError) (remote1 : σ)
    (hcreate : client.CreateVCL s.fastlyServiceID s.selectedVersion name content s.remote
      = (.error createErr, remote1)) :
    (∃ s1, uploadVCLStep env client (.create path name content) s
        = (.update path name content, s1) ∧
      s1.calls = s.calls ++ [.CreateVCL s.fastlyServiceID s.selectedVersion name content] ∧
      s1.remote = remote1 ∧ s1.ch = s.ch ∧
      s1.fastlyServiceID = s.fastlyServiceID ∧ s1.selectedVersion = s.selectedVersion) ∧
    ∀ s2 : State σ, s2.fastlyServiceID = s.fastlyServiceID →
      s2.selectedVersion = s.selectedVersion →
      ∃ r s3, uploadVCLStep env client (.update path name content) s2 = (.send r, s3) ∧
        s3.calls = s2.calls ++ [.UpdateVCL s.fastlyServiceID s.selectedVersion name content] ∧
        s3.ch = s2.ch ∧
        r.Path = path ∧ r.Name = name ∧
        (match (client.UpdateVCL s.fastlyServiceID s.selectedVersion name content s2.remote).1 with
         | .ok vclFileUpdate => r.Error = false ∧ r.Content = vclFileUpdate.Content
         | .error updateErr => r.Error = true ∧ r.Content = "error: " ++ updateErr) ∧
        (∀ s4 : State σ, s4.ch.length < s4.chCap →
          uploadVCLStep env client (.send r) s4 = (.done, { s4 with ch := s4.ch ++ [r] })) ∧
        (∀ s5 : State σ, uploadVCLStep env client .done s5 = (.done, s5)) := by
  constructor
  · simp only [uploadVCLStep, hcreate]
    exact ⟨_, rfl, rfl, rfl, rfl, rfl, rfl⟩
  · intro s2 hsid hver
    have hsend : ∀ (r : vclResponse) (s4 : State σ), s4.ch.length < s4.chCap →
        uploadVCLStep env client (.send r) s4 = (.done, { s4 with ch := s4.ch ++ [r] }) := by
      intro r s4 h4
      simp [uploadVCLStep, h4]
    have hdone : ∀ s5 : State σ, uploadVCLStep env client .done s5 = (.done, s5) :=
      fun _ => rfl
    have hstep : uploadVCLStep env client (.update path name content) s2
        = match client.UpdateVCL s.fastlyServiceID s.selectedVersion name content s2.remote with
          | (.error updateErr, remote) =>
            (.send { Path := path, Name := name, Content := "error: " ++ updateErr,
                     Error := true },
             s2.called (.UpdateVCL s.fastlyServiceID s.selectedVersion name content) remote)
          | (.ok vclFileUpdate, remote) =>
            (.send { Path := path, Name := name, Content := vclFileUpdate.Content,
                     Error := false },
             s2.called (.UpdateVCL s.fastlyServiceID s.selectedVersion name content) remote) := by
      simp only [uploadVCLStep, hsid, hver]
    rw [hstep]
    rcases client.UpdateVCL s.fastlyServiceID s.selectedVersion name content s2.remote
      with ⟨res, remote2⟩
    cases res with
    | error updateErr =>
      exact ⟨_, _, rfl, rfl, rfl, rfl, rfl, ⟨rfl, rfl⟩, hsend _, hdone⟩
    | ok vclFileUpdate =>
      exact ⟨_, _, rfl, rfl, rfl, rfl, rfl, ⟨rfl, rfl⟩, hsend _, hdone⟩

/-- Claim C6 on the reference service: version "1" is active, so both the create
and the update are rejected. -/
theorem uploadVCL_create_failure_then_update_witness :
    fastly.CreateVCL "svc" "1" "main" "sub vcl_recv" ⟨[⟨"1", true⟩], []⟩
      = (.error "422 - Version is active", ⟨[⟨"1", true⟩], []⟩) ∧
    ∃ s1, uploadVCLStep sampleEnv fastly (.create "vcl/main.vcl" "main" "sub vcl_recv")
        { sampleState ⟨[⟨"1", true⟩], []⟩ with selectedVersion := "1", chCap := 1 }
        = (.update "vcl/main.vcl" "main" "sub vcl_recv", s1) ∧
      s1.calls = [.CreateVCL "svc" "1" "main" "sub vcl_recv"] :=
  ⟨rfl,
   let ⟨s1, h1, h2, _⟩ := (uploadVCL_create_failure_then_update sampleEnv fastly "vcl/main.vcl"
      "main" "sub vcl_recv"
      { sampleState ⟨[⟨"1", true⟩], []⟩ with selectedVersion := "1", chCap := 1 }
      "422 - Version is active" ⟨[⟨"1", true⟩], []⟩ rfl).1
   ⟨s1, h1, h2⟩⟩

/-- Claim C7.  For every list of paths, every behaviour of the file reads and of
the remote calls, and every interleaving of the goroutines, the wait returns and
the channel then holds as many results as there are paths, the paths of the
results are a rearrangement of the input paths, and every result is named after
its own path; a single task, run from start to end, sends exactly one result,
with its input path and the name derived from it. -/
theorem dispatch_complete {σ : Type} (env : Env) (client : Client σ) (sched : List Nat)
    (s : State σ) :
    ∃ s1, dispatch env client sched s = .ret s1 ∧
      s1.ch.length = s.vclFiles.length ∧
      (s1.ch.map fun r => r.Path).Perm s.vclFiles ∧
      (∀ r ∈ s1.ch, r.Name = extractName r.Path) ∧
      ∀ (path : String) (s2 : State σ), s2.ch.length < s2.chCap →
        ∃ r s3, uploadVCL env client path s2 = (.done, s3) ∧ s3.ch = s2.ch ++ [r] ∧
          r.Path = path ∧ r.Name = extractName path := by
  have h0 := PoolInv.init s
  have h1 := runSchedule_inv env client s.vclFiles sched _ h0
  have hlen : (runSchedule env client sched
      ((s.vclFiles.map Task.entry, { s with ch := [], chCap := s.vclFiles.length }) : Pool σ)).1.length
        = s.vclFiles.length := by
    rw [runSchedule_length]
    simp
  have hdrain := runSchedule_drain env client s.vclFiles (List.range s.vclFiles.length) _ h1
    (by intro i hi; rw [hlen]; exact List.mem_range.1 hi)
  have h2 := runSchedule_inv env client s.vclFiles
    ((List.range s.vclFiles.length).flatMap fun i => List.replicate 4 i) _ h1
  rw [← runSchedule_append] at hdrain h2
  have hlen2 : (runSchedule env client
      (sched ++ (List.range s.vclFiles.length).flatMap fun i => List.replicate 4 i)
      ((s.vclFiles.map Task.entry, { s with ch := [], chCap := s.vclFiles.length }) : Pool σ)).1.length
        = s.vclFiles.length := by
    rw [runSchedule_length]
    simp
  have hall := all_done_of_get? _ (fun i hi => hdrain i (List.mem_range.2 (by rw [← hlen2]; exact hi)))
  have hperm := h2.perm
  rw [filterMap_pending_done _ hall, List.append_nil] at hperm
  refine ⟨_, ?_, ?_, hperm, h2.names, uploadVCL_sends_once env client⟩
  · unfold dispatch
    simp only [drainSchedule, List.length_map]
    rw [if_pos]
    rw [List.all_eq_true]
    intro t ht
    rw [hall t ht]
    rfl
  · have := hperm.length_eq
    simpa using this

/-- Claim C7 on two fragments, one interleaving, against the reference service. -/
theorem dispatch_complete_witness :
    ∃ s1, dispatch sampleEnv fastly [1, 0, 1, 0, 0]
        { sampleState ⟨[⟨"1", false⟩], []⟩ with
          selectedVersion := "1", vclFiles := ["vcl/a.vcl", "vcl/b.vcl"] } = .ret s1 ∧
      s1.ch.length = 2 ∧
      (s1.ch.map fun r => r.Path).Perm ["vcl/a.vcl", "vcl/b.vcl"] :=
  let ⟨s1, h1, h2, h3, _⟩ := dispatch_complete sampleEnv fastly [1, 0, 1, 0, 0]
    { sampleState ⟨[⟨"1", false⟩], []⟩ with
      selectedVersion := "1", vclFiles := ["vcl/a.vcl", "vcl/b.vcl"] }
  ⟨s1, h1, h2, h3⟩

/-- Claim C8.  Every path splits as a directory part that is empty or ends in
`/`, followed by a base name without `/`; the base name is `extractName path`
followed by a rest that is empty or starts with `.`; the extracted name contains
neither `.` nor `/`; and any path ending in `/foo.bar.vcl` yields `foo`. -/
theorem extractName_base_up_to_first_dot (path : String) :
    (∃ dir file suffix : List Char,
      path.data = dir ++ file ∧ '/' ∉ file ∧ (dir = [] ∨ dir.getLast? = some '/') ∧
      file = (extractName path).data ++ suffix ∧ (suffix = [] ∨ suffix.head? = some '.')) ∧
    '.' ∉ (extractName path).data ∧ '/' ∉ (extractName path).data ∧
    ∀ dir : String, extractName (dir ++ "/foo.bar.vcl") = "foo" := by
  refine ⟨⟨(filepathSplit path).1.data, (filepathSplit path).2.data,
    (filepathSplit path).2.data.dropWhile (fun c => c != '.'),
    filepathSplit_append path, filepathSplit_file path, filepathSplit_dir path, ?_,
    dropWhile_ne_head '.' _⟩, ?_, ?_, ?_⟩
  · rw [extractName_data, List.takeWhile_append_dropWhile]
  · rw [extractName_data]
    exact takeWhile_ne_not_mem '.' _
  · rw [extractName_data]
    intro h
    exact filepathSplit_file path (mem_takeWhile_mem h)
  · intro dir
    have h := extractName_data (dir ++ "/foo.bar.vcl")
    have hf : (filepathSplit (dir ++ "/foo.bar.vcl")).2.data = "foo.bar.vcl".data := by
      unfold filepathSplit
      simp [String.data_append, List.takeWhile]
    rw [hf] at h
    have h2 : (extractName (dir ++ "/foo.bar.vcl")).data = "foo".data := by
      rw [h]
      decide
    exact String.ext h2

/-- Claim C9 as amended.  With the default skip pattern `^____` and the default
empty match pattern, `aggregate` returns no error and adds the path to
`vclFiles` exactly when `validPathDefaults` accepts it and the path itself does
not begin with four underscores. -/
theorem aggregate_default_patterns {σ : Type} (path : String) (s : State σ) :
    aggregate path (withDefaultPatterns s) =
      (.ret none,
       if validPathDefaults path && !startsWithFourUnderscores path then
         { withDefaultPatterns s with vclFiles := s.vclFiles ++ [path] }
       else withDefaultPatterns s) := by
  have hs : (withDefaultPatterns s).dirSkipRegex
      = some [.beginText, .lit '_', .lit '_', .lit '_', .lit '_'] := regexpCompile_skip
  have hm : (withDefaultPatterns s).dirMatchRegex = some [] := regexpCompile_empty
  have hv : (withDefaultPatterns s).vclFiles = s.vclFiles := rfl
  unfold aggregate validPathUserDefined invalidPathUserDefined
  rw [hs, hm]
  simp only [MatchString, matchFrom_nil, matchFrom_skip, hv]
  unfold startsWithFourUnderscores
  by_cases h1 : validPathDefaults path = true
  · by_cases h2 : "____".data.isPrefixOf path.data = true
    · simp [h1, h2]
    · simp [h1, h2]
      exact ⟨hs.symm, hm.symm⟩
  · simp [h1]

/-- Claim C9 fails as stated: the last directory segment of
`vcl/____private/x.vcl` is `____private`, yet under the default patterns
`aggregate` keeps the path, and a run over the directory `vcl` uploads it. -/
theorem aggregate_nested_underscore_dir_kept :
    lastDirSegment "vcl/____private/x.vcl" = "____private" ∧
    (aggregate "vcl/____private/x.vcl" (withDefaultPatterns (initState ()))).2.vclFiles
      = ["vcl/____private/x.vcl"] ∧
    (main sampleEnv fastly sampleFlags [] ⟨[⟨"1", true⟩], []⟩).2.vclFiles
      = ["vcl/main.vcl", "vcl/____private/x.vcl"] := by
  refine ⟨by decide, by decide, by decide⟩

/-- Claim C10.  The remote calls that version resolution issues are: under
clone-from V the one clone of V; under upload-to V the one `GetVersion` of V;
under use-latest the listing and, if a latest version was found, one
`GetVersion` of it, with no mutating call, and exit status 1 when that version
is active; under the default policy the listing and, exactly when a latest
version was found, one clone of it, the clone being the only mutating call. -/
theorem resolveVersion_remote_calls {σ : Type} (client : Client σ) (flags : Flags)
    (s : State σ) :
    ∃ issued : List Call,
      (resolveVersion client flags s).2.calls = s.calls ++ issued ∧
      (match policyOf flags with
       | .cloneFrom v => issued = [.CloneVersion s.fastlyServiceID v]
       | .uploadTo v => issued = [.GetVersion s.fastlyServiceID v]
       | .useLatest =>
         issued.countP isMutating = 0 ∧
         (∀ latest, (getLatestVCLVersion client s).1 = .ret (.ok latest) →
           issued = [.ListVersions s.fastlyServiceID, .GetVersion s.fastlyServiceID latest] ∧
           (∀ v remote2, client.GetVersion s.fastlyServiceID latest
               (client.ListVersions s.fastlyServiceID s.remote).2 = (.ok v, remote2) →
             v.Active = true → (resolveVersion client flags s).1 = .exited 1))
       | .default =>
         issued.countP isMutating = issued.countP isClone ∧
         (∀ latest, (getLatestVCLVersion client s).1 = .ret (.ok latest) →
           issued = [.ListVersions s.fastlyServiceID, .CloneVersion s.fastlyServiceID latest]) ∧
         ((∀ latest, (getLatestVCLVersion client s).1 ≠ .ret (.ok latest)) →
           issued = [.ListVersions s.fastlyServiceID])) := by
  unfold resolveVersion policyOf
  by_cases hc : flags.cloneVersion = ""
  · by_cases hu : flags.uploadVersion = ""
    · have hst := getLatestVCLVersion_state client s
      rcases hg : getLatestVCLVersion client s with ⟨res, s1⟩
      rw [hg] at hst
      subst hst
      by_cases hl : flags.useLatestVersion = true
      · simp only [hc, hu, hl, ne_eq, not_true_eq_false, if_false, if_true]
        rcases res with (err | latest) | msg
        · exact ⟨[.ListVersions s.fastlyServiceID], rfl, rfl, by intro l h; cases h⟩
        · simp only [State.called]
          rcases hgv : client.GetVersion s.fastlyServiceID latest
              (client.ListVersions s.fastlyServiceID s.remote).2 with ⟨gres, remote2⟩
          refine ⟨[.ListVersions s.fastlyServiceID, .GetVersion s.fastlyServiceID latest],
            ?_, rfl, ?_⟩
          · cases gres with
            | error err => simp [State.print]
            | ok v => cases hv : v.Active <;> simp [State.print, hv]
          · intro l h
            injection h with h
            injection h with h
            subst h
            refine ⟨rfl, ?_⟩
            intro v remote3 hv hact
            rw [hgv] at hv
            injection hv with hv1 hv2
            subst hv1
            simp [hact]
        · exact ⟨[.ListVersions s.fastlyServiceID], rfl, rfl, by intro l h; cases h⟩
      · simp only [hc, hu, hl, ne_eq, not_true_eq_false, if_false]
        rcases res with (err | latest) | msg
        · exact ⟨[.ListVersions s.fastlyServiceID], rfl, rfl, (by intro l h; cases h),
            (fun _ => rfl)⟩
        · simp only [cloneFromVersion, State.called]
          refine ⟨[.ListVersions s.fastlyServiceID, .CloneVersion s.fastlyServiceID latest],
            ?_, rfl, ?_, ?_⟩
          · rcases client.CloneVersion s.fastlyServiceID latest
              (client.ListVersions s.fastlyServiceID s.remote).2 with ⟨cres, remote2⟩
            cases cres <;> simp [State.print]
          · intro l h
            injection h with h
            injection h with h
            subst h
            rfl
          · intro h
            exact absurd rfl (h latest)
        · exact ⟨[.ListVersions s.fastlyServiceID], rfl, rfl, (by intro l h; cases h),
            (fun _ => rfl)⟩
    · simp only [hc, hu, ne_eq, not_true_eq_false, not_false_eq_true, if_false, if_true]
      refine ⟨[.GetVersion s.fastlyServiceID flags.uploadVersion], ?_, rfl⟩
      rcases client.GetVersion s.fastlyServiceID flags.uploadVersion s.remote with ⟨gres, remote1⟩
      cases gres with
      | error err => simp [State.print, State.called]
      | ok v => cases hv : v.Active <;> simp [State.print, State.called, hv]
  · simp only [hc, ne_eq, not_false_eq_true, if_true]
    refine ⟨[.CloneVersion s.fastlyServiceID flags.cloneVersion], ?_, rfl⟩
    simp only [cloneFromVersion]
    rcases client.CloneVersion s.fastlyServiceID flags.cloneVersion s.remote with ⟨cres, remote1⟩
    cases cres <;> simp [State.print, State.called]

/-- Claim C10 on the reference service under use-latest, the latest version "2"
being active. -/
theorem resolveVersion_remote_calls_witness :
    ∃ issued : List Call,
      (resolveVersion fastly { sampleFlags with useLatestVersion := true }
        (sampleState ⟨[⟨"2", true⟩, ⟨"1", false⟩], []⟩)).2.calls = [] ++ issued ∧
      issued.countP isMutating = 0 ∧
      issued = [.ListVersions "svc", .GetVersion "svc" "2"] ∧
      (resolveVersion fastly { sampleFlags with useLatestVersion := true }
        (sampleState ⟨[⟨"2", true⟩, ⟨"1", false⟩], []⟩)).1 = .exited 1 :=
  let ⟨issued, h1, h2, h3⟩ := resolveVersion_remote_calls fastly
    { sampleFlags with useLatestVersion := true }
    (sampleState ⟨[⟨"2", true⟩, ⟨"1", false⟩], []⟩)
  ⟨issued, h1, h2, (h3 "2" rfl).1,
    (h3 "2" rfl).2 ⟨"2", true⟩ ⟨[⟨"2", true⟩, ⟨"1", false⟩], []⟩ rfl rfl⟩

end Lataa
